import Mathlib

/-!
Verification of the ABR decision engine of dash-emulator
(src/dash_emulator/abr.py, class DashABRController).

The Python code is shallowly embedded: dictionaries become association
lists kept in insertion order, Python `None` becomes `Option.none`,
raised exceptions become `Except.error`, and floats become exact
rationals `ℚ`.  Executability is kept throughout: the rational
arithmetic used inside the embedded functions is written with
`Rat.divInt`-based helpers (`qadd`, `qsub`, `qmul`, `qdiv`) that the
kernel can evaluate, and each helper is proved equal to the
corresponding field operation on `ℚ`.
-/

set_option maxRecDepth 8000

namespace DashAbr

/-- Rational addition written so that the kernel can evaluate it on
concrete inputs; proved equal to `a + b` in `qadd_eq`. -/
def qadd (a b : ℚ) : ℚ := Rat.divInt (a.num * b.den + b.num * a.den) (a.den * b.den)

/-- Rational subtraction, evaluable by the kernel; equals `a - b`. -/
def qsub (a b : ℚ) : ℚ := Rat.divInt (a.num * b.den - b.num * a.den) (a.den * b.den)

/-- Rational multiplication, evaluable by the kernel; equals `a * b`. -/
def qmul (a b : ℚ) : ℚ := Rat.divInt (a.num * b.num) (a.den * b.den)

/-- Rational division, evaluable by the kernel; equals `a / b`
(with the `ℚ` convention `a / 0 = 0`). -/
def qdiv (a b : ℚ) : ℚ := Rat.divInt (a.num * b.den) (a.den * b.num)

/-- Python `int()` applied to a rational: truncation toward zero. -/
def pyInt (q : ℚ) : ℤ := q.num.tdiv q.den

/-- A single encoded quality tier.  Modelled from the spec: the class
`Representation` lives in `dash_emulator/models.py`, which is not part
of the sources; the spec (§3) and the uses in `abr.py` fix the two
fields the controller reads: `id` and `bandwidth` (the bitrate). -/
structure Representation where
  id : Int
  bandwidth : ℚ
deriving DecidableEq

/-- A media track.  Modelled from the spec: the class `AdaptationSet`
lives in `dash_emulator/models.py`, which is not part of the sources;
the spec (§3) and the uses in `abr.py` fix the fields the controller
reads: `id`, `content_type`, and the mapping id → `Representation`,
kept here as an association list in insertion order. -/
structure AdaptationSet where
  id : Int
  content_type : String
  representations : List (Int × Representation)
deriving DecidableEq

/-- The Python exceptions the embedded code can raise.
`configurationError` is named by the spec's error taxonomy (§7) but is
never produced anywhere in `abr.py`; it is included so that claims
about it can be stated. -/
inductive PyExn where
  | attributeError
  | indexError
  | keyError
  | zeroDivisionError
  | configurationError
deriving DecidableEq

deriving instance DecidableEq for Except

/-- A selection mapping: adaptation-set id → representation id,
where the value may be Python `None` (as `buffer_based` can produce). -/
abbrev Selection := List (Int × Option Int)

/-- Python `d.get(k)` on an insertion-ordered dictionary. -/
def dictGet {α : Type} (d : List (Int × α)) (k : Int) : Option α :=
  (d.find? (fun p => decide (p.1 = k))).map (fun p => p.2)

/-- Python `d[k]` where the key expression may itself be `None`
(raising `KeyError` on a missing key, as in
`representations[self._last_selections.get(id_)]`). -/
def pyDictIndex {α : Type} (d : List (Int × α)) (k : Option Int) : Except PyExn α :=
  match k with
  | none => .error .keyError
  | some k =>
    match dictGet d k with
    | some v => .ok v
    | none => .error .keyError

/-- One insertion step of the stable descending-by-bitrate sort used in
`choose_ideal_selection_bandwidth_based`
(`sorted(..., key=lambda x: x.bandwidth, reverse=True)`). -/
def insertDesc (r : Representation) : List Representation → List Representation
  | [] => [r]
  | x :: xs => if x.bandwidth ≤ r.bandwidth then r :: x :: xs else x :: insertDesc r xs

/-- Stable sort of representations by descending bitrate; extensionally
equal to Python's stable `sorted(..., reverse=True)`. -/
def sortDesc : List Representation → List Representation
  | [] => []
  | x :: xs => insertDesc x (sortDesc xs)

/-- One insertion step of the stable ascending sort used on the bitrate
list in `choose_ideal_selection_buffer_based` (`bitrates.sort()`). -/
def insertAsc (b : ℚ) : List ℚ → List ℚ
  | [] => [b]
  | x :: xs => if b ≤ x then b :: x :: xs else x :: insertAsc b xs

/-- Stable ascending sort of a list of bitrates. -/
def sortAsc : List ℚ → List ℚ
  | [] => []
  | x :: xs => insertAsc x (sortAsc xs)

/-- `DashABRController.choose_ideal_selection_bandwidth_based`: sort the
track's representations by descending bitrate, return the first whose
bitrate is strictly below the allocated bandwidth, else the last one
(the lowest).  On an empty representation mapping the loop never runs,
`representation` stays `None`, and `representation.id` raises
`AttributeError`. -/
def choose_ideal_selection_bandwidth_based (adaptation_set : AdaptationSet) (bw : ℚ) :
    Except PyExn Int :=
  let representations := sortDesc (adaptation_set.representations.map (fun p => p.2))
  match representations.find? (fun r => decide (r.bandwidth < bw)) with
  | some r => .ok r.id
  | none =>
    match representations.getLast? with
    | some r => .ok r.id
    | none => .error .attributeError

/-- The id returned by `choose_ideal_selection_bandwidth_based` when it
does not raise (a convenience projection, defined from the embedded
function itself). -/
def chooseValue (adaptation_set : AdaptationSet) (bw : ℚ) : Int :=
  match choose_ideal_selection_bandwidth_based adaptation_set bw with
  | .ok i => i
  | .error _ => 0

/-- The `num_videos` counter of `hybrid_based` / `bandwidth_based`:
adaptation sets whose `content_type` equals `"video"`. -/
def num_videos (adaptation_sets : List (Int × AdaptationSet)) : ℕ :=
  (adaptation_sets.filter (fun p => p.2.content_type == "video")).length

/-- The `num_audios` counter of `hybrid_based` / `bandwidth_based`:
every adaptation set whose `content_type` is not `"video"` is counted
here (the `else` branch of the loop). -/
def num_audios (adaptation_sets : List (Int × AdaptationSet)) : ℕ :=
  (adaptation_sets.filter (fun p => !(p.2.content_type == "video"))).length

/-- The bandwidth share a track receives in `hybrid_based` /
`bandwidth_based`: an even split when one content-type count is zero,
otherwise 80% of the budget split across video tracks and 20% across
the others. -/
def allocated_share (available_bandwidth : ℚ) (nv na : ℕ) (content_type : String) : ℚ :=
  if nv = 0 ∨ na = 0 then qdiv available_bandwidth ((nv + na : ℕ) : ℚ)
  else if content_type == "video" then qdiv (qmul available_bandwidth (mkRat 8 10)) ((nv : ℕ) : ℚ)
  else qdiv (qmul available_bandwidth (mkRat 2 10)) ((na : ℕ) : ℚ)

/-- The loop of the ideal-selection computation shared by
`hybrid_based` and `bandwidth_based`: one ideal representation id per
adaptation set, keyed by `adaptation_set.id`, stopping at the first
exception. -/
def compute_ideal_go (B : ℚ) (nv na : ℕ) :
    List (Int × AdaptationSet) → Except PyExn Selection
  | [] => .ok []
  | (_, a) :: rest =>
    match choose_ideal_selection_bandwidth_based a (allocated_share B nv na a.content_type) with
    | .error e => .error e
    | .ok i =>
      match compute_ideal_go B nv na rest with
      | .error e => .error e
      | .ok tail => .ok ((a.id, some i) :: tail)

/-- The ideal-selection computation of `hybrid_based` (lines 83-119)
and `bandwidth_based` (lines 159-196): count video/audio tracks,
partition the available bandwidth, and choose per-track ideal
representations.  On an empty catalog Python divides by
`num_videos + num_audios == 0` and raises `ZeroDivisionError`. -/
def compute_ideal (adaptation_sets : List (Int × AdaptationSet)) (available_bandwidth : ℚ) :
    Except PyExn Selection :=
  if num_videos adaptation_sets + num_audios adaptation_sets = 0 then .error .zeroDivisionError
  else
    compute_ideal_go available_bandwidth (num_videos adaptation_sets)
      (num_audios adaptation_sets) adaptation_sets

/-- Controller configuration fixed at construction
(`DashABRController.__init__`). -/
structure Config where
  panic_buffer : ℚ
  safe_buffer : ℚ
  buffer_size : ℚ
  abr_algorithm : String
deriving DecidableEq

/-- The controller's mutable cross-call state: the lazily built rate
map (`self.rate_map`) and the previous selection
(`self._last_selections`). -/
structure CtrlState where
  rate_map : Option (List (ℚ × ℚ))
  last_selections : Option Selection
deriving DecidableEq

/-- The per-track hysteresis decision inlined in the final loop of
`hybrid_based` (lines 131-144): below the panic buffer keep the
lower-bitrate of previous/ideal, above the safe buffer keep the
higher-bitrate one, otherwise take the ideal one. -/
def hybrid_pick (panic_buffer safe_buffer buffer_level : ℚ)
    (last_repr ideal_repr : Representation) : Int :=
  if buffer_level < panic_buffer then
    if last_repr.bandwidth < ideal_repr.bandwidth then last_repr.id else ideal_repr.id
  else if safe_buffer < buffer_level then
    if ideal_repr.bandwidth < last_repr.bandwidth then last_repr.id else ideal_repr.id
  else ideal_repr.id

/-- The final loop of `hybrid_based` (lines 126-145): for each entry of
the catalog, look up the previous and the ideal representation
(`representations[... .get(id_)]`, raising `KeyError` on a missing or
`None` key) and apply the hysteresis decision. -/
def hybrid_adjust (panic_buffer safe_buffer buffer_level : ℚ) (last ideal : Selection) :
    List (Int × AdaptationSet) → Except PyExn Selection
  | [] => .ok []
  | (id_, adaptation_set) :: rest =>
    match pyDictIndex adaptation_set.representations ((dictGet last id_).join) with
    | .error e => .error e
    | .ok last_repr =>
      match pyDictIndex adaptation_set.representations ((dictGet ideal id_).join) with
      | .error e => .error e
      | .ok ideal_repr =>
        match hybrid_adjust panic_buffer safe_buffer buffer_level last ideal rest with
        | .error e => .error e
        | .ok tail =>
          .ok ((id_, some (hybrid_pick panic_buffer safe_buffer buffer_level
            last_repr ideal_repr)) :: tail)

/-- `DashABRController.hybrid_based`: use 70% of the measured bandwidth
(truncated to an int), compute the ideal selection, and when a previous
selection exists adjust it per track by the buffer-level hysteresis;
the result is persisted as `_last_selections`. -/
def hybrid_based (cfg : Config) (bandwidth buffer_level : ℚ) (st : CtrlState)
    (adaptation_sets : List (Int × AdaptationSet)) :
    Except PyExn Selection × CtrlState :=
  let available_bandwidth : ℚ := ((pyInt (qmul bandwidth (mkRat 7 10)) : ℤ) : ℚ)
  match compute_ideal adaptation_sets available_bandwidth with
  | .error e => (.error e, st)
  | .ok ideal_selection =>
    match st.last_selections with
    | some last =>
      match hybrid_adjust cfg.panic_buffer cfg.safe_buffer buffer_level last
          ideal_selection adaptation_sets with
      | .error e => (.error e, st)
      | .ok final_selections =>
        (.ok final_selections, { st with last_selections := some final_selections })
    | none => (.ok ideal_selection, { st with last_selections := some ideal_selection })

/-- `DashABRController.bandwidth_based`: compute the ideal selection
from the full measured bandwidth, then unconditionally discard it and
return the fixed placeholder `{0: 3}` (line 198 of `abr.py`). -/
def bandwidth_based (bandwidth : ℚ) (adaptation_sets : List (Int × AdaptationSet)) :
    Except PyExn Selection :=
  let available_bandwidth : ℚ := ((pyInt bandwidth : ℤ) : ℚ)
  match compute_ideal adaptation_sets available_bandwidth with
  | .error e => .error e
  | .ok _ideal_selection => .ok [((0 : Int), some 3)]

/-- `self.RESERVOIR` (10%). -/
def RESERVOIR : ℚ := mkRat 1 10

/-- `self.UPPER_RESERVOIR` (90%). -/
def UPPER_RESERVOIR : ℚ := mkRat 9 10

/-- The marker loop of `get_rate_map`: intermediate bitrates anchored
at `current_marker`, `current_marker + marker_length`, ... . -/
def rate_map_markers (marker_length : ℚ) : ℚ → List ℚ → List (ℚ × ℚ)
  | _, [] => []
  | current_marker, bitrate :: rest =>
    (current_marker, bitrate) ::
      rate_map_markers marker_length (qadd current_marker marker_length) rest

/-- `DashABRController.get_rate_map`: an ordered mapping from buffer
fractions to bitrates — the lowest bitrate at `RESERVOIR`, intermediate
bitrates at equal intervals, the highest at `UPPER_RESERVOIR`.  On an
empty bitrate list `bitrates[0]` raises `IndexError`. -/
def get_rate_map (bitrates : List ℚ) : Except PyExn (List (ℚ × ℚ)) :=
  match bitrates.head?, bitrates.getLast? with
  | some b0, some blast =>
    let intermediate_levels := (bitrates.drop 1).dropLast
    let marker_length :=
      qdiv (qsub UPPER_RESERVOIR RESERVOIR) (((intermediate_levels.length + 1 : ℕ)) : ℚ)
    .ok (((RESERVOIR, b0) ::
      rate_map_markers marker_length (qadd RESERVOIR marker_length) intermediate_levels) ++
      [(UPPER_RESERVOIR, blast)])
  | _, _ => .error .indexError

/-- The rate-map walk of `choose_ideal_selection_buffer_based` (lines
299-302), already applied to the reversed key list: keep assigning
`next_bitrate` while the marker is ≥ the buffer fraction and stop at
the first marker strictly below it. -/
def walk_rate_map (buffer_percentage : ℚ) :
    List (ℚ × ℚ) → Option ℚ → Option ℚ
  | [], next_bitrate => next_bitrate
  | (marker, bitrate) :: rest, next_bitrate =>
    if marker < buffer_percentage then next_bitrate
    else walk_rate_map buffer_percentage rest (some bitrate)

/-- The final loop of `choose_ideal_selection_buffer_based` (lines
304-307): scan all representations and keep the id of the last one
whose bitrate equals `next_bitrate` (`None` when nothing matches). -/
def find_representation_id (representations : List (Int × Representation))
    (next_bitrate : Option ℚ) : Option Int :=
  representations.foldl
    (fun acc p => if next_bitrate = some p.2.bandwidth then some p.2.id else acc) none

/-- `DashABRController.choose_ideal_selection_buffer_based`: sort the
track's bitrates ascending, compute the buffer fraction, build the rate
map once (cached in `self.rate_map`), clamp to the lowest/highest
bitrate outside the reservoir/cushion band, walk the rate map inside
it, and map the bitrate back to a representation id.  Returns the value
together with the possibly updated rate-map cache. -/
def choose_ideal_selection_buffer_based (cfg : Config) (buffer_level : ℚ)
    (rate_map : Option (List (ℚ × ℚ))) (adaptation_set : AdaptationSet) :
    Except PyExn (Option Int) × Option (List (ℚ × ℚ)) :=
  let bitrates := sortAsc (adaptation_set.representations.map (fun p => p.2.bandwidth))
  if cfg.buffer_size = 0 then (.error .zeroDivisionError, rate_map)
  else
    let buffer_percentage := qdiv buffer_level cfg.buffer_size
    match (match rate_map with
           | some m => Except.ok m
           | none => get_rate_map bitrates) with
    | .error e => (.error e, rate_map)
    | .ok m =>
      match (if buffer_percentage ≤ RESERVOIR then
               match bitrates.head? with
               | some b => Except.ok (some b)
               | none => Except.error PyExn.indexError
             else if UPPER_RESERVOIR ≤ buffer_percentage then
               match bitrates.getLast? with
               | some b => Except.ok (some b)
               | none => Except.error PyExn.indexError
             else Except.ok (walk_rate_map buffer_percentage m.reverse none)) with
      | .error e => (.error e, some m)
      | .ok next_bitrate =>
        (.ok (find_representation_id adaptation_set.representations next_bitrate), some m)

/-- The loop of `DashABRController.buffer_based`, threading the
rate-map cache through the per-track choices. -/
def buffer_based_go (cfg : Config) (buffer_level : ℚ) :
    List (Int × AdaptationSet) → Option (List (ℚ × ℚ)) →
    Except PyExn Selection × Option (List (ℚ × ℚ))
  | [], rate_map => (.ok [], rate_map)
  | (_, adaptation_set) :: rest, rate_map =>
    match choose_ideal_selection_buffer_based cfg buffer_level rate_map adaptation_set with
    | (.error e, rm) => (.error e, rm)
    | (.ok v, rm) =>
      match buffer_based_go cfg buffer_level rest rm with
      | (.error e, rm2) => (.error e, rm2)
      | (.ok tail, rm2) => (.ok ((adaptation_set.id, v) :: tail), rm2)

/-- `DashABRController.buffer_based`: one buffer-based choice per
adaptation set, keyed by `adaptation_set.id`. -/
def buffer_based (cfg : Config) (buffer_level : ℚ) (st : CtrlState)
    (adaptation_sets : List (Int × AdaptationSet)) :
    Except PyExn Selection × CtrlState :=
  match buffer_based_go cfg buffer_level adaptation_sets st.rate_map with
  | (r, rm) => (r, { st with rate_map := rm })

/-- `DashABRController.update_selection`: dispatch on the configured
strategy name; a name that matches none of the three branches falls off
the end of the `if/elif` chain and Python implicitly returns `None`
(modelled as `.ok none`). -/
def update_selection (cfg : Config) (bandwidth buffer_level : ℚ) (st : CtrlState)
    (adaptation_sets : List (Int × AdaptationSet)) :
    Except PyExn (Option Selection) × CtrlState :=
  if cfg.abr_algorithm == "buffer-based" then
    match buffer_based cfg buffer_level st adaptation_sets with
    | (.error e, st') => (.error e, st')
    | (.ok s, st') => (.ok (some s), st')
  else if cfg.abr_algorithm == "bandwidth-based" then
    match bandwidth_based bandwidth adaptation_sets with
    | .error e => (.error e, st)
    | .ok s => (.ok (some s), st)
  else if cfg.abr_algorithm == "hybrid" then
    match hybrid_based cfg bandwidth buffer_level st adaptation_sets with
    | (.error e, st') => (.error e, st')
    | (.ok s, st') => (.ok (some s), st')
  else (.ok none, st)

/-- Modelled from the spec's words (§4.1.2 step 4, the claimed step
function): "pick the bitrate associated with the largest anchor
fraction that is ≤ the current fraction".  Scanning the rate map in
ascending anchor order and keeping the last anchor that is ≤ the
fraction realises exactly that reading; used only to compare the
spec's wording against the code. -/
def spec_largest_anchor_le (rate_map : List (ℚ × ℚ)) (buffer_percentage : ℚ) : Option ℚ :=
  rate_map.foldl (fun acc p => if p.1 ≤ buffer_percentage then some p.2 else acc) none

/-! ### Concrete inputs used by witnesses and counterexamples -/

/-- The seven-step bitrate ladder of the spec's scenarios, with
representation ids 0..6 equal to the dictionary keys. -/
def ladderReps : List (Int × Representation) :=
  [(0, ⟨0, 391570⟩), (1, ⟨1, 641379⟩), (2, ⟨2, 988603⟩), (3, ⟨3, 1489543⟩),
   (4, ⟨4, 2284798⟩), (5, ⟨5, 3487003⟩), (6, ⟨6, 5253818⟩)]

/-- A video track over `ladderReps` with adaptation-set id 0. -/
def ladderSet : AdaptationSet := ⟨0, "video", ladderReps⟩

/-- The same ladder but with representation ids 1..7, so that the ideal
choice for a 2,000,000 budget has id 4. -/
def ladderReps17 : List (Int × Representation) :=
  [(1, ⟨1, 391570⟩), (2, ⟨2, 641379⟩), (3, ⟨3, 988603⟩), (4, ⟨4, 1489543⟩),
   (5, ⟨5, 2284798⟩), (6, ⟨6, 3487003⟩), (7, ⟨7, 5253818⟩)]

/-- A video track over `ladderReps17` with adaptation-set id 0. -/
def ladderSet17 : AdaptationSet := ⟨0, "video", ladderReps17⟩

/-- A non-video track (content type "other") with two representations. -/
def otherSet : AdaptationSet := ⟨1, "other", [(0, ⟨0, 100000⟩), (1, ⟨1, 300000⟩)]⟩

/-- A three-step track used by the C4 counterexample (rate-map anchors
1/10, 1/2, 9/10). -/
def threeStepSet : AdaptationSet := ⟨0, "video", [(0, ⟨0, 100⟩), (1, ⟨1, 200⟩), (2, ⟨2, 300⟩)]⟩

/-- An adaptation set with an empty representation mapping. -/
def emptySet : AdaptationSet := ⟨0, "video", []⟩

/-- The rate map the controller builds (and caches) for `ladderReps`:
anchors 1/10, 7/30, 11/30, 1/2, 19/30, 23/30, 9/10. -/
def exRateMap : List (ℚ × ℚ) :=
  [(mkRat 1 10, 391570), (mkRat 7 30, 641379), (mkRat 11 30, 988603),
   (mkRat 1 2, 1489543), (mkRat 19 30, 2284798), (mkRat 23 30, 3487003),
   (mkRat 9 10, 5253818)]

/-- The buffer-based configuration of the spec's scenarios
(`panic_buffer=5`, `safe_buffer=20`, `max_buffer_duration=30`). -/
def cfgBuffer : Config := ⟨5, 20, 30, "buffer-based"⟩

/-- The hybrid configuration of the spec's scenarios. -/
def cfgHybrid : Config := ⟨5, 20, 30, "hybrid"⟩

/-- The bandwidth-based configuration. -/
def cfgBandwidth : Config := ⟨5, 20, 30, "bandwidth-based"⟩

/-! ### Bridging lemmas for the executable rational arithmetic -/

theorem qadd_eq (a b : ℚ) : qadd a b = a + b := by
  have ha : ((a.den : ℚ)) ≠ 0 := Nat.cast_ne_zero.mpr a.den_ne_zero
  have hb : ((b.den : ℚ)) ≠ 0 := Nat.cast_ne_zero.mpr b.den_ne_zero
  rw [qadd, Rat.divInt_eq_div]
  push_cast
  conv_rhs => rw [← Rat.num_div_den a, ← Rat.num_div_den b]
  field_simp
  try ring

theorem qsub_eq (a b : ℚ) : qsub a b = a - b := by
  have ha : ((a.den : ℚ)) ≠ 0 := Nat.cast_ne_zero.mpr a.den_ne_zero
  have hb : ((b.den : ℚ)) ≠ 0 := Nat.cast_ne_zero.mpr b.den_ne_zero
  rw [qsub, Rat.divInt_eq_div]
  push_cast
  conv_rhs => rw [← Rat.num_div_den a, ← Rat.num_div_den b]
  field_simp
  try ring

theorem qmul_eq (a b : ℚ) : qmul a b = a * b := by
  have ha : ((a.den : ℚ)) ≠ 0 := Nat.cast_ne_zero.mpr a.den_ne_zero
  have hb : ((b.den : ℚ)) ≠ 0 := Nat.cast_ne_zero.mpr b.den_ne_zero
  rw [qmul, Rat.divInt_eq_div]
  push_cast
  conv_rhs => rw [← Rat.num_div_den a, ← Rat.num_div_den b]
  field_simp

theorem qdiv_eq (a b : ℚ) : qdiv a b = a / b := by
  rcases eq_or_ne b 0 with rfl | hb0
  · simp [qdiv]
  · have ha : ((a.den : ℚ)) ≠ 0 := Nat.cast_ne_zero.mpr a.den_ne_zero
    have hbd : ((b.den : ℚ)) ≠ 0 := Nat.cast_ne_zero.mpr b.den_ne_zero
    have hbn : ((b.num : ℚ)) ≠ 0 := by
      exact_mod_cast Int.cast_ne_zero.mpr (Rat.num_ne_zero.mpr hb0)
    rw [qdiv, Rat.divInt_eq_div]
    push_cast
    conv_rhs => rw [← Rat.num_div_den a, ← Rat.num_div_den b]
    field_simp
    try ring

theorem RESERVOIR_eq : RESERVOIR = 1 / 10 := by
  rw [RESERVOIR, Rat.mkRat_eq_div]
  norm_num

theorem UPPER_RESERVOIR_eq : UPPER_RESERVOIR = 9 / 10 := by
  rw [UPPER_RESERVOIR, Rat.mkRat_eq_div]
  norm_num

/-! ### The stable sorts -/

theorem mem_insertDesc {r x : Representation} {l : List Representation} :
    x ∈ insertDesc r l ↔ x = r ∨ x ∈ l := by
  induction l with
  | nil => simp [insertDesc]
  | cons y ys ih =>
    by_cases h : y.bandwidth ≤ r.bandwidth
    · simp only [insertDesc, h, if_true, List.mem_cons]
      try tauto
    · simp only [insertDesc, h, if_false, List.mem_cons, ih]
      try tauto

theorem insertDesc_perm (r : Representation) (l : List Representation) :
    List.Perm (insertDesc r l) (r :: l) := by
  induction l with
  | nil => rfl
  | cons y ys ih =>
    by_cases h : y.bandwidth ≤ r.bandwidth
    · simp [insertDesc, h]
    · simp only [insertDesc, h, if_false]
      exact (ih.cons y).trans (List.Perm.swap r y ys)

theorem sortDesc_perm (l : List Representation) : List.Perm (sortDesc l) l := by
  induction l with
  | nil => rfl
  | cons y ys ih => exact (insertDesc_perm y (sortDesc ys)).trans (ih.cons y)

theorem insertDesc_pairwise {r : Representation} {l : List Representation}
    (h : l.Pairwise (fun a b => b.bandwidth ≤ a.bandwidth)) :
    (insertDesc r l).Pairwise (fun a b => b.bandwidth ≤ a.bandwidth) := by
  induction l with
  | nil => simp [insertDesc]
  | cons y ys ih =>
    rcases List.pairwise_cons.mp h with ⟨hy, hys⟩
    by_cases hc : y.bandwidth ≤ r.bandwidth
    · simp only [insertDesc, hc, if_true]
      refine List.pairwise_cons.mpr ⟨?_, h⟩
      intro z hz
      rcases List.mem_cons.mp hz with rfl | hz'
      · exact hc
      · exact le_trans (hy z hz') hc
    · simp only [insertDesc, hc, if_false]
      refine List.pairwise_cons.mpr ⟨?_, ih hys⟩
      intro z hz
      rcases mem_insertDesc.mp hz with rfl | hz'
      · exact le_of_lt (lt_of_not_le hc)
      · exact hy z hz'

theorem sortDesc_pairwise (l : List Representation) :
    (sortDesc l).Pairwise (fun a b => b.bandwidth ≤ a.bandwidth) := by
  induction l with
  | nil => simp [sortDesc]
  | cons y ys ih => exact insertDesc_pairwise ih

theorem mem_insertAsc {b x : ℚ} {l : List ℚ} :
    x ∈ insertAsc b l ↔ x = b ∨ x ∈ l := by
  induction l with
  | nil => simp [insertAsc]
  | cons y ys ih =>
    by_cases h : b ≤ y
    · simp only [insertAsc, h, if_true, List.mem_cons]
      try tauto
    · simp only [insertAsc, h, if_false, List.mem_cons, ih]
      try tauto

theorem insertAsc_perm (b : ℚ) (l : List ℚ) : List.Perm (insertAsc b l) (b :: l) := by
  induction l with
  | nil => rfl
  | cons y ys ih =>
    by_cases h : b ≤ y
    · simp [insertAsc, h]
    · simp only [insertAsc, h, if_false]
      exact (ih.cons y).trans (List.Perm.swap b y ys)

theorem sortAsc_perm (l : List ℚ) : List.Perm (sortAsc l) l := by
  induction l with
  | nil => rfl
  | cons y ys ih => exact (insertAsc_perm y (sortAsc ys)).trans (ih.cons y)

theorem insertAsc_pairwise {b : ℚ} {l : List ℚ} (h : l.Pairwise (· ≤ ·)) :
    (insertAsc b l).Pairwise (· ≤ ·) := by
  induction l with
  | nil => simp [insertAsc]
  | cons y ys ih =>
    rcases List.pairwise_cons.mp h with ⟨hy, hys⟩
    by_cases hc : b ≤ y
    · simp only [insertAsc, hc, if_true]
      refine List.pairwise_cons.mpr ⟨?_, h⟩
      intro z hz
      rcases List.mem_cons.mp hz with rfl | hz'
      · exact hc
      · exact le_trans hc (hy z hz')
    · simp only [insertAsc, hc, if_false]
      refine List.pairwise_cons.mpr ⟨?_, ih hys⟩
      intro z hz
      rcases mem_insertAsc.mp hz with rfl | hz'
      · exact le_of_lt (lt_of_not_le hc)
      · exact hy z hz'

theorem sortAsc_pairwise (l : List ℚ) : (sortAsc l).Pairwise (· ≤ ·) := by
  induction l with
  | nil => simp [sortAsc]
  | cons y ys ih => exact insertAsc_pairwise ih

/-! ### Facts about searches on sorted lists -/

theorem find_desc_max {bw : ℚ} {l : List Representation}
    (hs : l.Pairwise (fun a b => b.bandwidth ≤ a.bandwidth)) {r : Representation}
    (hf : l.find? (fun r => decide (r.bandwidth < bw)) = some r) :
    r ∈ l ∧ r.bandwidth < bw ∧
      ∀ x ∈ l, x.bandwidth < bw → x.bandwidth ≤ r.bandwidth := by
  induction l with
  | nil => simp at hf
  | cons y ys ih =>
    rcases List.pairwise_cons.mp hs with ⟨hy, hys⟩
    by_cases hc : y.bandwidth < bw
    · rw [List.find?_cons_of_pos _ (by simpa using hc)] at hf
      injection hf with hf
      subst hf
      refine ⟨List.mem_cons_self _ _, hc, ?_⟩
      intro x hx _
      rcases List.mem_cons.mp hx with rfl | hx'
      · exact le_rfl
      · exact hy x hx'
    · rw [List.find?_cons_of_neg _ (by simpa using hc)] at hf
      obtain ⟨hmem, hlt, hmax⟩ := ih hys hf
      refine ⟨List.mem_cons_of_mem _ hmem, hlt, ?_⟩
      intro x hx hxlt
      rcases List.mem_cons.mp hx with rfl | hx'
      · exact absurd hxlt hc
      · exact hmax x hx' hxlt

theorem getLast_desc_min {l : List Representation}
    (hs : l.Pairwise (fun a b => b.bandwidth ≤ a.bandwidth)) {r : Representation}
    (h : l.getLast? = some r) :
    r ∈ l ∧ ∀ x ∈ l, r.bandwidth ≤ x.bandwidth := by
  obtain ⟨ys, rfl⟩ := List.getLast?_eq_some_iff.mp h
  rcases List.pairwise_append.mp hs with ⟨-, -, hcross⟩
  constructor
  · exact List.mem_append_right _ (List.mem_singleton_self r)
  · intro x hx
    rcases List.mem_append.mp hx with hx' | hx'
    · exact hcross x hx' r (List.mem_singleton_self r)
    · rw [List.mem_singleton.mp hx']

theorem head_asc_min {l : List ℚ} (hs : l.Pairwise (· ≤ ·)) {b : ℚ}
    (h : l.head? = some b) : b ∈ l ∧ ∀ x ∈ l, b ≤ x := by
  cases l with
  | nil => simp at h
  | cons y ys =>
    injection h with h
    subst h
    rcases List.pairwise_cons.mp hs with ⟨hy, -⟩
    refine ⟨List.mem_cons_self _ _, ?_⟩
    intro x hx
    rcases List.mem_cons.mp hx with rfl | hx'
    · exact le_rfl
    · exact hy x hx'

theorem getLast_asc_max {l : List ℚ} (hs : l.Pairwise (· ≤ ·)) {b : ℚ}
    (h : l.getLast? = some b) : b ∈ l ∧ ∀ x ∈ l, x ≤ b := by
  obtain ⟨ys, rfl⟩ := List.getLast?_eq_some_iff.mp h
  rcases List.pairwise_append.mp hs with ⟨-, -, hcross⟩
  constructor
  · exact List.mem_append_right _ (List.mem_singleton_self b)
  · intro x hx
    rcases List.mem_append.mp hx with hx' | hx'
    · exact hcross x hx' b (List.mem_singleton_self b)
    · rw [List.mem_singleton.mp hx']

/-- C5.  For every non-empty adaptation set and every allocated
bandwidth share, `choose_ideal_selection_bandwidth_based` returns the
id of a representation of that set; when some representation's bitrate
is strictly below the share the returned one has the highest such
bitrate (itself strictly below the share), and when none is, the
returned one has the lowest bitrate overall — a representation is
always returned. -/
theorem choose_ideal_bandwidth_spec (adaptation_set : AdaptationSet) (bw : ℚ)
    (h : adaptation_set.representations ≠ []) :
    ∃ r ∈ adaptation_set.representations.map (fun p => p.2),
      choose_ideal_selection_bandwidth_based adaptation_set bw = .ok r.id ∧
      ((∃ q ∈ adaptation_set.representations.map (fun p => p.2), q.bandwidth < bw) →
        r.bandwidth < bw ∧
          ∀ q ∈ adaptation_set.representations.map (fun p => p.2),
            q.bandwidth < bw → q.bandwidth ≤ r.bandwidth) ∧
      ((∀ q ∈ adaptation_set.representations.map (fun p => p.2), ¬ q.bandwidth < bw) →
        ∀ q ∈ adaptation_set.representations.map (fun p => p.2),
          r.bandwidth ≤ q.bandwidth) := by
  set vals := adaptation_set.representations.map (fun p => p.2) with hvals
  have hperm : List.Perm (sortDesc vals) vals := sortDesc_perm vals
  have hsorted := sortDesc_pairwise vals
  rw [choose_ideal_selection_bandwidth_based]
  cases hf : (sortDesc vals).find? (fun r => decide (r.bandwidth < bw)) with
  | some r =>
    obtain ⟨hmem, hlt, hmax⟩ := find_desc_max hsorted hf
    refine ⟨r, hperm.mem_iff.mp hmem, rfl, ?_, ?_⟩
    · intro _
      exact ⟨hlt, fun q hq hqlt => hmax q (hperm.mem_iff.mpr hq) hqlt⟩
    · intro hall
      exact absurd hlt (hall r (hperm.mem_iff.mp hmem))
  | none =>
    have hvne : vals ≠ [] := by
      intro hcon
      exact h (List.map_eq_nil_iff.mp (hvals ▸ hcon))
    have hne : sortDesc vals ≠ [] := by
      intro hcon
      rw [hcon] at hperm
      exact hvne (List.Perm.nil_eq hperm).symm
    obtain ⟨r, hlast⟩ := Option.isSome_iff_exists.mp (List.getLast?_isSome.mpr hne)
    obtain ⟨hmem, hmin⟩ := getLast_desc_min hsorted hlast
    rw [hlast]
    refine ⟨r, hperm.mem_iff.mp hmem, rfl, ?_, ?_⟩
    · intro ⟨q, hq, hqlt⟩
      have := List.find?_eq_none.mp hf q (hperm.mem_iff.mpr hq)
      simp at this
      exact absurd hqlt (not_lt.mpr this)
    · intro _ q hq
      exact hmin q (hperm.mem_iff.mpr hq)

/-- Witness for C5 at the seven-step ladder of the spec with a share of
2,000,000: the representation with bitrate 1,489,543 is returned. -/
theorem choose_ideal_bandwidth_spec_witness :
    ∃ r ∈ ([(0, (⟨0, 391570⟩ : Representation)), (1, ⟨1, 641379⟩), (2, ⟨2, 988603⟩),
        (3, ⟨3, 1489543⟩), (4, ⟨4, 2284798⟩), (5, ⟨5, 3487003⟩),
        (6, ⟨6, 5253818⟩)] : List (Int × Representation)).map (fun p => p.2),
      choose_ideal_selection_bandwidth_based ⟨0, "video",
        [(0, ⟨0, 391570⟩), (1, ⟨1, 641379⟩), (2, ⟨2, 988603⟩), (3, ⟨3, 1489543⟩),
         (4, ⟨4, 2284798⟩), (5, ⟨5, 3487003⟩), (6, ⟨6, 5253818⟩)]⟩ 2000000 = .ok r.id ∧
      ((∃ q ∈ ([(0, (⟨0, 391570⟩ : Representation)), (1, ⟨1, 641379⟩), (2, ⟨2, 988603⟩),
          (3, ⟨3, 1489543⟩), (4, ⟨4, 2284798⟩), (5, ⟨5, 3487003⟩),
          (6, ⟨6, 5253818⟩)] : List (Int × Representation)).map (fun p => p.2),
          q.bandwidth < 2000000) →
        r.bandwidth < 2000000 ∧
          ∀ q ∈ ([(0, (⟨0, 391570⟩ : Representation)), (1, ⟨1, 641379⟩), (2, ⟨2, 988603⟩),
            (3, ⟨3, 1489543⟩), (4, ⟨4, 2284798⟩), (5, ⟨5, 3487003⟩),
            (6, ⟨6, 5253818⟩)] : List (Int × Representation)).map (fun p => p.2),
            q.bandwidth < 2000000 → q.bandwidth ≤ r.bandwidth) ∧
      ((∀ q ∈ ([(0, (⟨0, 391570⟩ : Representation)), (1, ⟨1, 641379⟩), (2, ⟨2, 988603⟩),
          (3, ⟨3, 1489543⟩), (4, ⟨4, 2284798⟩), (5, ⟨5, 3487003⟩),
          (6, ⟨6, 5253818⟩)] : List (Int × Representation)).map (fun p => p.2),
          ¬ q.bandwidth < 2000000) →
        ∀ q ∈ ([(0, (⟨0, 391570⟩ : Representation)), (1, ⟨1, 641379⟩), (2, ⟨2, 988603⟩),
          (3, ⟨3, 1489543⟩), (4, ⟨4, 2284798⟩), (5, ⟨5, 3487003⟩),
          (6, ⟨6, 5253818⟩)] : List (Int × Representation)).map (fun p => p.2),
          r.bandwidth ≤ q.bandwidth) :=
  choose_ideal_bandwidth_spec
    ⟨0, "video",
      [(0, ⟨0, 391570⟩), (1, ⟨1, 641379⟩), (2, ⟨2, 988603⟩), (3, ⟨3, 1489543⟩),
       (4, ⟨4, 2284798⟩), (5, ⟨5, 3487003⟩), (6, ⟨6, 5253818⟩)]⟩ 2000000 (by decide)

/-! ### Dictionaries, counters and the ideal-selection computation -/

theorem num_videos_add_num_audios (l : List (Int × AdaptationSet)) :
    num_videos l + num_audios l = l.length := by
  induction l with
  | nil => rfl
  | cons p rest ih =>
    by_cases h : p.2.content_type == "video" <;>
      simp [num_videos, num_audios, List.filter_cons, h] at ih ⊢ <;> omega

theorem dictGet_eq_of_mem {α : Type} {l : List (Int × α)}
    (hnd : (l.map Prod.fst).Nodup) {k : Int} {v : α} (h : (k, v) ∈ l) :
    dictGet l k = some v := by
  induction l with
  | nil => simp at h
  | cons p rest ih =>
    simp only [List.map_cons, List.nodup_cons] at hnd
    rcases List.mem_cons.mp h with heq | hmem
    · rw [← heq]
      simp [dictGet]
    · have hk : ¬ p.1 = k := by
        intro hcon
        exact hnd.1 (hcon ▸ List.mem_map_of_mem Prod.fst hmem)
      rw [dictGet, List.find?_cons_of_neg _ (by simpa using hk)]
      exact ih hnd.2 hmem

theorem dictGet_map_self {β : Type} {l : List (Int × AdaptationSet)}
    (f : AdaptationSet → β) (hk : ∀ p ∈ l, p.2.id = p.1)
    (hnd : (l.map Prod.fst).Nodup) {k : Int} {a : AdaptationSet} (hmem : (k, a) ∈ l) :
    dictGet (l.map (fun p => (p.2.id, f p.2))) k = some (f a) := by
  have hres : (k, f a) ∈ l.map (fun p => (p.2.id, f p.2)) := by
    have h1 := List.mem_map_of_mem (fun p => (p.2.id, f p.2)) hmem
    have h2 : a.id = k := hk (k, a) hmem
    simpa [h2] using h1
  have hnd2 : ((l.map (fun p => (p.2.id, f p.2))).map Prod.fst).Nodup := by
    have heq : (l.map (fun p => (p.2.id, f p.2))).map Prod.fst = l.map Prod.fst := by
      simp only [List.map_map]
      exact List.map_congr_left (fun p hp => hk p hp)
    rw [heq]
    exact hnd
  exact dictGet_eq_of_mem hnd2 hres

theorem choose_ideal_ok (a : AdaptationSet) (bw : ℚ) (h : a.representations ≠ []) :
    choose_ideal_selection_bandwidth_based a bw = .ok (chooseValue a bw) := by
  obtain ⟨r, _, heq, -, -⟩ := choose_ideal_bandwidth_spec a bw h
  rw [heq]
  simp only [chooseValue, heq]

theorem compute_ideal_go_eq (B : ℚ) (nv na : ℕ) (l : List (Int × AdaptationSet))
    (hne : ∀ p ∈ l, p.2.representations ≠ []) :
    compute_ideal_go B nv na l =
      .ok (l.map (fun p =>
        (p.2.id, some (chooseValue p.2 (allocated_share B nv na p.2.content_type))))) := by
  induction l with
  | nil => rfl
  | cons p rest ih =>
    obtain ⟨k, a⟩ := p
    simp only [compute_ideal_go]
    rw [choose_ideal_ok a _ (hne (k, a) (List.mem_cons_self _ _)),
      ih (fun q hq => hne q (List.mem_cons_of_mem _ hq))]
    simp

theorem compute_ideal_eq (l : List (Int × AdaptationSet)) (B : ℚ) (hcat : l ≠ [])
    (hne : ∀ p ∈ l, p.2.representations ≠ []) :
    compute_ideal l B =
      .ok (l.map (fun p => (p.2.id, some (chooseValue p.2
        (allocated_share B (num_videos l) (num_audios l) p.2.content_type))))) := by
  have hne0 : ¬ (num_videos l + num_audios l = 0) := by
    rw [num_videos_add_num_audios]
    exact fun hcon => hcat (List.length_eq_zero.mp hcon)
  rw [compute_ideal, if_neg hne0]
  exact compute_ideal_go_eq _ _ _ _ hne

/-! ### Bandwidth partitioning -/

theorem allocated_share_video {B : ℚ} {nv na : ℕ} (hv : nv ≠ 0) (ha : na ≠ 0) :
    allocated_share B nv na "video" = (8 / 10) * B / (nv : ℚ) := by
  rw [allocated_share, if_neg (by push_neg; exact ⟨hv, ha⟩)]
  rw [if_pos (by rfl)]
  rw [qdiv_eq, qmul_eq, Rat.mkRat_eq_div]
  push_cast
  ring

theorem allocated_share_nonvideo {B : ℚ} {nv na : ℕ} {ct : String}
    (hv : nv ≠ 0) (ha : na ≠ 0) (hct : ct ≠ "video") :
    allocated_share B nv na ct = (2 / 10) * B / (na : ℚ) := by
  rw [allocated_share, if_neg (by push_neg; exact ⟨hv, ha⟩)]
  rw [if_neg (by simpa using hct)]
  rw [qdiv_eq, qmul_eq, Rat.mkRat_eq_div]
  push_cast
  ring

theorem allocated_share_even {B : ℚ} {nv na : ℕ} {ct : String}
    (h : nv = 0 ∨ na = 0) :
    allocated_share B nv na ct = B / ((nv + na : ℕ) : ℚ) := by
  rw [allocated_share, if_pos h, qdiv_eq]

theorem list_map_sum_const {α : Type} (l : List α) (f : α → ℚ) (c : ℚ)
    (h : ∀ x ∈ l, f x = c) : (l.map f).sum = (l.length : ℚ) * c := by
  induction l with
  | nil => simp
  | cons x rest ih =>
    simp only [List.map_cons, List.sum_cons, List.length_cons,
      h x (List.mem_cons_self _ _), ih (fun y hy => h y (List.mem_cons_of_mem _ hy))]
    push_cast
    ring

/-- C7.  Bandwidth partitioning: with both content types present, every
video track's share is `0.8*B/N`, every non-video track's share is
`0.2*B/M`, the shares of the video tracks sum to `0.8*B` and those of
the audio tracks to `0.2*B`; when one of the two counts is zero, every
track's share is `B` divided by the total track count. -/
theorem bandwidth_partitioning_sums (adaptation_sets : List (Int × AdaptationSet)) (B : ℚ) :
    (0 < num_videos adaptation_sets → 0 < num_audios adaptation_sets →
      (∀ p ∈ adaptation_sets, p.2.content_type = "video" →
        allocated_share B (num_videos adaptation_sets) (num_audios adaptation_sets)
          p.2.content_type = (8 / 10) * B / (num_videos adaptation_sets : ℚ)) ∧
      (∀ p ∈ adaptation_sets, p.2.content_type ≠ "video" →
        allocated_share B (num_videos adaptation_sets) (num_audios adaptation_sets)
          p.2.content_type = (2 / 10) * B / (num_audios adaptation_sets : ℚ)) ∧
      ((adaptation_sets.filter (fun p => p.2.content_type == "video")).map
        (fun p => allocated_share B (num_videos adaptation_sets)
          (num_audios adaptation_sets) p.2.content_type)).sum = (8 / 10) * B ∧
      ((adaptation_sets.filter (fun p => !(p.2.content_type == "video"))).map
        (fun p => allocated_share B (num_videos adaptation_sets)
          (num_audios adaptation_sets) p.2.content_type)).sum = (2 / 10) * B) ∧
    ((num_videos adaptation_sets = 0 ∨ num_audios adaptation_sets = 0) →
      adaptation_sets ≠ [] →
      ∀ p ∈ adaptation_sets,
        allocated_share B (num_videos adaptation_sets) (num_audios adaptation_sets)
          p.2.content_type = B / (adaptation_sets.length : ℚ)) := by
  constructor
  · intro hv ha
    have hv' : num_videos adaptation_sets ≠ 0 := Nat.pos_iff_ne_zero.mp hv
    have ha' : num_audios adaptation_sets ≠ 0 := Nat.pos_iff_ne_zero.mp ha
    have hvq : ((num_videos adaptation_sets : ℚ)) ≠ 0 := Nat.cast_ne_zero.mpr hv'
    have haq : ((num_audios adaptation_sets : ℚ)) ≠ 0 := Nat.cast_ne_zero.mpr ha'
    refine ⟨?_, ?_, ?_, ?_⟩
    · intro p _ hct
      rw [hct]
      exact allocated_share_video hv' ha'
    · intro p _ hct
      exact allocated_share_nonvideo hv' ha' hct
    · rw [list_map_sum_const _ _ ((8 / 10) * B / (num_videos adaptation_sets : ℚ)) ?_]
      · rw [show ((adaptation_sets.filter
            (fun p => p.2.content_type == "video")).length : ℚ) =
            (num_videos adaptation_sets : ℚ) from rfl]
        field_simp
        ring
      · intro p hp
        have hct : p.2.content_type = "video" :=
          beq_iff_eq.mp (List.mem_filter.mp hp).2
        rw [hct]
        exact allocated_share_video hv' ha'
    · rw [list_map_sum_const _ _ ((2 / 10) * B / (num_audios adaptation_sets : ℚ)) ?_]
      · rw [show ((adaptation_sets.filter
            (fun p => !(p.2.content_type == "video"))).length : ℚ) =
            (num_audios adaptation_sets : ℚ) from rfl]
        field_simp
        ring
      · intro p hp
        have hct : p.2.content_type ≠ "video" := by
          have hb := (List.mem_filter.mp hp).2
          simp only [Bool.not_eq_true'] at hb
          exact fun hcon => by simp [hcon] at hb
        exact allocated_share_nonvideo hv' ha' hct
  · intro h _ p _
    rw [allocated_share_even h, num_videos_add_num_audios]

/-- Witness for C7: a one-video-one-audio catalog with budget 1,000,000
(both-types case), and the single-video catalog (even-split case). -/
theorem bandwidth_partitioning_sums_witness :
    (0 < num_videos [((0 : Int), ladderSet), (1, otherSet)] ∧
      0 < num_audios [((0 : Int), ladderSet), (1, otherSet)]) ∧
    ((([((0 : Int), ladderSet), (1, otherSet)].filter
        (fun p => p.2.content_type == "video")).map
        (fun p => allocated_share 1000000 (num_videos [((0 : Int), ladderSet), (1, otherSet)])
          (num_audios [((0 : Int), ladderSet), (1, otherSet)]) p.2.content_type)).sum =
      (8 / 10) * 1000000) ∧
    (∀ p ∈ [((0 : Int), ladderSet)],
      allocated_share 1000000 (num_videos [((0 : Int), ladderSet)])
        (num_audios [((0 : Int), ladderSet)]) p.2.content_type =
        1000000 / (([((0 : Int), ladderSet)] : List (Int × AdaptationSet)).length : ℚ)) := by
  refine ⟨⟨by decide, by decide⟩, ?_, ?_⟩
  · exact (((bandwidth_partitioning_sums [((0 : Int), ladderSet), (1, otherSet)]
      1000000).1 (by decide) (by decide)).2.2).1
  · exact (bandwidth_partitioning_sums [((0 : Int), ladderSet)] 1000000).2
      (by decide) (by decide)

/-- C10.  In the bandwidth partitioning, every adaptation set whose
content type is not exactly "video" (including "other") is counted as
an audio track, and — whenever at least one video track is present — it
is funded from the 20% audio share: its allocated bandwidth is
`0.2*B / num_audios`, and the ideal-selection computation selects its
representation with exactly that share. -/
theorem non_video_counted_as_audio (adaptation_sets : List (Int × AdaptationSet)) (B : ℚ)
    (p : Int × AdaptationSet) (hp : p ∈ adaptation_sets)
    (hct : p.2.content_type ≠ "video") (hv : 0 < num_videos adaptation_sets)
    (hk : ∀ q ∈ adaptation_sets, q.2.id = q.1)
    (hnd : (adaptation_sets.map Prod.fst).Nodup)
    (hne : ∀ q ∈ adaptation_sets, q.2.representations ≠ []) :
    0 < num_audios adaptation_sets ∧
    allocated_share B (num_videos adaptation_sets) (num_audios adaptation_sets)
      p.2.content_type = (2 / 10) * B / (num_audios adaptation_sets : ℚ) ∧
    ∃ s, compute_ideal adaptation_sets B = .ok s ∧
      dictGet s p.1 = some (some (chooseValue p.2
        (allocated_share B (num_videos adaptation_sets) (num_audios adaptation_sets)
          p.2.content_type))) := by
  have ha : 0 < num_audios adaptation_sets := by
    rw [num_audios]
    refine List.length_pos.mpr (List.ne_nil_of_mem (List.mem_filter.mpr ⟨hp, ?_⟩))
    simp only [Bool.not_eq_true']
    exact beq_eq_false_iff_ne.mpr hct
  have hcat : adaptation_sets ≠ [] := List.ne_nil_of_mem hp
  refine ⟨ha, allocated_share_nonvideo (Nat.pos_iff_ne_zero.mp hv)
    (Nat.pos_iff_ne_zero.mp ha) hct, ?_⟩
  refine ⟨_, compute_ideal_eq adaptation_sets B hcat hne, ?_⟩
  exact dictGet_map_self
    (fun a => some (chooseValue a (allocated_share B (num_videos adaptation_sets)
      (num_audios adaptation_sets) a.content_type)))
    hk hnd (by simpa using hp)

/-- Witness for C10: the "other" track of a one-video-one-other catalog
is allocated the audio share 200,000 of budget 1,000,000, and the
computed ideal selection picks its representation id 0 (bitrate
100,000, the highest one strictly below 200,000). -/
theorem non_video_counted_as_audio_witness :
    0 < num_audios [((0 : Int), ladderSet), (1, otherSet)] ∧
    allocated_share 1000000 (num_videos [((0 : Int), ladderSet), (1, otherSet)])
      (num_audios [((0 : Int), ladderSet), (1, otherSet)])
      ((1, otherSet) : Int × AdaptationSet).2.content_type =
      (2 / 10) * 1000000 / ((num_audios [((0 : Int), ladderSet), (1, otherSet)]) : ℚ) ∧
    ∃ s, compute_ideal [((0 : Int), ladderSet), (1, otherSet)] 1000000 = .ok s ∧
      dictGet s ((1, otherSet) : Int × AdaptationSet).1 =
        some (some (chooseValue ((1, otherSet) : Int × AdaptationSet).2
          (allocated_share 1000000 (num_videos [((0 : Int), ladderSet), (1, otherSet)])
            (num_audios [((0 : Int), ladderSet), (1, otherSet)])
            ((1, otherSet) : Int × AdaptationSet).2.content_type))) :=
  non_video_counted_as_audio [((0 : Int), ladderSet), (1, otherSet)] 1000000
    (1, otherSet) (by decide) (by decide) (by decide) (by decide) (by decide)
    (by decide)

/-! ### The hybrid strategy's hysteresis -/

theorem hybrid_pick_panic {panic safe lvl : ℚ} (h : lvl < panic)
    (lr ir : Representation) :
    ∃ r, (r = lr ∨ r = ir) ∧ hybrid_pick panic safe lvl lr ir = r.id ∧
      r.bandwidth = min lr.bandwidth ir.bandwidth := by
  rw [hybrid_pick, if_pos h]
  by_cases hb : lr.bandwidth < ir.bandwidth
  · exact ⟨lr, Or.inl rfl, by rw [if_pos hb], (min_eq_left (le_of_lt hb)).symm⟩
  · exact ⟨ir, Or.inr rfl, by rw [if_neg hb], (min_eq_right (not_lt.mp hb)).symm⟩

theorem hybrid_pick_safe {panic safe lvl : ℚ} (h1 : ¬ lvl < panic) (h2 : safe < lvl)
    (lr ir : Representation) :
    ∃ r, (r = lr ∨ r = ir) ∧ hybrid_pick panic safe lvl lr ir = r.id ∧
      r.bandwidth = max lr.bandwidth ir.bandwidth := by
  rw [hybrid_pick, if_neg h1, if_pos h2]
  by_cases hb : ir.bandwidth < lr.bandwidth
  · exact ⟨lr, Or.inl rfl, by rw [if_pos hb], (max_eq_left (le_of_lt hb)).symm⟩
  · exact ⟨ir, Or.inr rfl, by rw [if_neg hb], (max_eq_right (not_lt.mp hb)).symm⟩

theorem hybrid_pick_normal {panic safe lvl : ℚ} (h1 : ¬ lvl < panic)
    (h2 : ¬ safe < lvl) (lr ir : Representation) :
    hybrid_pick panic safe lvl lr ir = ir.id := by
  rw [hybrid_pick, if_neg h1, if_neg h2]

theorem hybrid_adjust_eq (panic safe lvl : ℚ) (last ideal : Selection)
    (l : List (Int × AdaptationSet))
    (hl : ∀ p ∈ l, ∃ lr, pyDictIndex p.2.representations ((dictGet last p.1).join) = .ok lr)
    (hi : ∀ p ∈ l, ∃ ir, pyDictIndex p.2.representations ((dictGet ideal p.1).join) = .ok ir) :
    ∃ s, hybrid_adjust panic safe lvl last ideal l = .ok s ∧
      ∀ p ∈ l, ∀ lr ir,
        pyDictIndex p.2.representations ((dictGet last p.1).join) = .ok lr →
        pyDictIndex p.2.representations ((dictGet ideal p.1).join) = .ok ir →
        (p.1, some (hybrid_pick panic safe lvl lr ir)) ∈ s := by
  induction l with
  | nil => exact ⟨[], rfl, by simp⟩
  | cons p rest ih =>
    obtain ⟨k, a⟩ := p
    obtain ⟨lr, hlr⟩ := hl (k, a) (List.mem_cons_self _ _)
    obtain ⟨ir, hir⟩ := hi (k, a) (List.mem_cons_self _ _)
    obtain ⟨s, hs, hmem⟩ := ih (fun q hq => hl q (List.mem_cons_of_mem _ hq))
      (fun q hq => hi q (List.mem_cons_of_mem _ hq))
    refine ⟨(k, some (hybrid_pick panic safe lvl lr ir)) :: s, ?_, ?_⟩
    · simp only [hybrid_adjust, hlr, hir, hs]
    · intro q hq lr' ir' hlr' hir'
      rcases List.mem_cons.mp hq with heq | hq'
      · subst heq
        rw [hlr] at hlr'
        rw [hir] at hir'
        injection hlr' with hlr'
        injection hir' with hir'
        subst hlr'
        subst hir'
        exact List.mem_cons_self _ _
      · exact List.mem_cons_of_mem _ (hmem q hq' lr' ir' hlr' hir')

/-- C1.  Hybrid-strategy hysteresis: with a previous selection in
place, for each track of the catalog, when the buffer level is strictly
below `panic_buffer` the final selection picks whichever of
previous/ideal has the lower bitrate (never an upgrade), when it is
strictly above `safe_buffer` it picks whichever has the higher bitrate
(never a downgrade), and in between it equals the ideal selection. -/
theorem hybrid_hysteresis_three_bands
    (cfg : Config) (bandwidth buffer_level : ℚ) (st : CtrlState)
    (adaptation_sets : List (Int × AdaptationSet)) (last : Selection)
    (hlast_st : st.last_selections = some last)
    (hps : cfg.panic_buffer ≤ cfg.safe_buffer)
    (hcat : adaptation_sets ≠ [])
    (hk : ∀ p ∈ adaptation_sets, p.2.id = p.1)
    (hnd : (adaptation_sets.map Prod.fst).Nodup)
    (hne : ∀ p ∈ adaptation_sets, p.2.representations ≠ [])
    (hrk : ∀ p ∈ adaptation_sets, ∀ q ∈ p.2.representations, q.2.id = q.1)
    (hrnd : ∀ p ∈ adaptation_sets, (p.2.representations.map Prod.fst).Nodup)
    (hlast : ∀ p ∈ adaptation_sets, ∃ lr,
      pyDictIndex p.2.representations ((dictGet last p.1).join) = .ok lr) :
    ∃ ideal final,
      compute_ideal adaptation_sets ((pyInt (qmul bandwidth (mkRat 7 10)) : ℤ) : ℚ) =
        .ok ideal ∧
      (hybrid_based cfg bandwidth buffer_level st adaptation_sets).1 = .ok final ∧
      ∀ p ∈ adaptation_sets, ∀ lr ir,
        pyDictIndex p.2.representations ((dictGet last p.1).join) = .ok lr →
        pyDictIndex p.2.representations ((dictGet ideal p.1).join) = .ok ir →
        ((buffer_level < cfg.panic_buffer →
          ∃ r, (r = lr ∨ r = ir) ∧ (p.1, some r.id) ∈ final ∧
            r.bandwidth = min lr.bandwidth ir.bandwidth) ∧
         (cfg.safe_buffer < buffer_level →
          ∃ r, (r = lr ∨ r = ir) ∧ (p.1, some r.id) ∈ final ∧
            r.bandwidth = max lr.bandwidth ir.bandwidth) ∧
         (cfg.panic_buffer ≤ buffer_level → buffer_level ≤ cfg.safe_buffer →
          (p.1, some ir.id) ∈ final)) := by
  have hci := compute_ideal_eq adaptation_sets
    ((pyInt (qmul bandwidth (mkRat 7 10)) : ℤ) : ℚ) hcat hne
  have hi : ∀ p ∈ adaptation_sets, ∃ ir,
      pyDictIndex p.2.representations
        ((dictGet (adaptation_sets.map (fun p => (p.2.id, some (chooseValue p.2
          (allocated_share ((pyInt (qmul bandwidth (mkRat 7 10)) : ℤ) : ℚ)
            (num_videos adaptation_sets) (num_audios adaptation_sets)
            p.2.content_type))))) p.1).join) = .ok ir := by
    intro p hp
    have hdg : dictGet (adaptation_sets.map (fun q => (q.2.id, some (chooseValue q.2
        (allocated_share ((pyInt (qmul bandwidth (mkRat 7 10)) : ℤ) : ℚ)
          (num_videos adaptation_sets) (num_audios adaptation_sets)
          q.2.content_type))))) p.1 =
        some (some (chooseValue p.2 (allocated_share
          ((pyInt (qmul bandwidth (mkRat 7 10)) : ℤ) : ℚ)
          (num_videos adaptation_sets) (num_audios adaptation_sets)
          p.2.content_type))) :=
      dictGet_map_self
        (fun a => some (chooseValue a (allocated_share
          ((pyInt (qmul bandwidth (mkRat 7 10)) : ℤ) : ℚ)
          (num_videos adaptation_sets) (num_audios adaptation_sets) a.content_type)))
        hk hnd (show (p.1, p.2) ∈ adaptation_sets by simpa using hp)
    have hjoin : (dictGet (adaptation_sets.map (fun q => (q.2.id, some (chooseValue q.2
        (allocated_share ((pyInt (qmul bandwidth (mkRat 7 10)) : ℤ) : ℚ)
          (num_videos adaptation_sets) (num_audios adaptation_sets)
          q.2.content_type))))) p.1).join =
        some (chooseValue p.2 (allocated_share
          ((pyInt (qmul bandwidth (mkRat 7 10)) : ℤ) : ℚ)
          (num_videos adaptation_sets) (num_audios adaptation_sets)
          p.2.content_type)) := by
      rw [hdg]
      rfl
    rw [hjoin]
    obtain ⟨r, hrmem, hchoose, -, -⟩ := choose_ideal_bandwidth_spec p.2
      (allocated_share ((pyInt (qmul bandwidth (mkRat 7 10)) : ℤ) : ℚ)
        (num_videos adaptation_sets) (num_audios adaptation_sets) p.2.content_type)
      (hne p hp)
    have hcv : chooseValue p.2 (allocated_share
        ((pyInt (qmul bandwidth (mkRat 7 10)) : ℤ) : ℚ)
        (num_videos adaptation_sets) (num_audios adaptation_sets) p.2.content_type) =
        r.id := by
      simp only [chooseValue, hchoose]
    obtain ⟨q, hq, hq2⟩ := List.mem_map.mp hrmem
    have hkey : r.id = q.1 := by
      rw [← hq2]
      exact hrk p hp q hq
    have hget : dictGet p.2.representations r.id = some r := by
      rw [hkey]
      have hmemq : (q.1, r) ∈ p.2.representations := by
        rw [← hq2]
        exact hq
      exact dictGet_eq_of_mem (hrnd p hp) hmemq
    refine ⟨r, ?_⟩
    rw [hcv]
    simp only [pyDictIndex, hget]
  obtain ⟨s, hs, hmem⟩ := hybrid_adjust_eq cfg.panic_buffer cfg.safe_buffer buffer_level
    last _ adaptation_sets hlast hi
  refine ⟨_, s, hci, ?_, ?_⟩
  · rw [hybrid_based]
    simp only [hci, hlast_st, hs]
  · intro p hp lr ir hlr hir
    have hmem' := hmem p hp lr ir hlr hir
    refine ⟨?_, ?_, ?_⟩
    · intro h
      obtain ⟨r, hor, hpick, hminr⟩ := hybrid_pick_panic h lr ir
      exact ⟨r, hor, hpick ▸ hmem', hminr⟩
    · intro h
      have h1 : ¬ buffer_level < cfg.panic_buffer :=
        not_lt.mpr (le_of_lt (lt_of_le_of_lt hps h))
      obtain ⟨r, hor, hpick, hmaxr⟩ := hybrid_pick_safe h1 h lr ir
      exact ⟨r, hor, hpick ▸ hmem', hmaxr⟩
    · intro hpb hsb
      have h1 : ¬ buffer_level < cfg.panic_buffer := not_lt.mpr hpb
      have h2 : ¬ cfg.safe_buffer < buffer_level := not_lt.mpr hsb
      have := hybrid_pick_normal h1 h2 lr ir
      exact this ▸ hmem'

/-- Witness for C1 at the spec's §8 scenario: `panic_buffer=5`,
`safe_buffer=20`, previous selection id 2 (bitrate 988,603), available
bandwidth 3,000,000 (so the ideal pick is id 4, bitrate 2,284,798) and
buffer occupancy 3 s — the result holds the previous id 2 down. -/
theorem hybrid_hysteresis_three_bands_witness :
    ∃ ideal final,
      compute_ideal [((0 : Int), ladderSet)]
        ((pyInt (qmul (mkRat 30000000 7) (mkRat 7 10)) : ℤ) : ℚ) = .ok ideal ∧
      (hybrid_based cfgHybrid (mkRat 30000000 7) 3
        ⟨none, some [(0, some 2)]⟩ [((0 : Int), ladderSet)]).1 = .ok final ∧
      ∀ p ∈ [((0 : Int), ladderSet)], ∀ lr ir,
        pyDictIndex p.2.representations ((dictGet [(0, some 2)] p.1).join) = .ok lr →
        pyDictIndex p.2.representations ((dictGet ideal p.1).join) = .ok ir →
        ((3 < cfgHybrid.panic_buffer →
          ∃ r, (r = lr ∨ r = ir) ∧ (p.1, some r.id) ∈ final ∧
            r.bandwidth = min lr.bandwidth ir.bandwidth) ∧
         (cfgHybrid.safe_buffer < 3 →
          ∃ r, (r = lr ∨ r = ir) ∧ (p.1, some r.id) ∈ final ∧
            r.bandwidth = max lr.bandwidth ir.bandwidth) ∧
         (cfgHybrid.panic_buffer ≤ 3 → 3 ≤ cfgHybrid.safe_buffer →
          (p.1, some ir.id) ∈ final)) :=
  hybrid_hysteresis_three_bands cfgHybrid (mkRat 30000000 7) 3
    ⟨none, some [(0, some 2)]⟩ [((0 : Int), ladderSet)] [(0, some 2)]
    rfl (by decide) (by decide) (by decide) (by decide) (by decide) (by decide)
    (by decide)
    (fun p hp => by
      rw [List.mem_singleton] at hp
      subst hp
      exact ⟨⟨2, 988603⟩, by decide⟩)

/-! ### The rate map and its walk -/

theorem walk_all_lt {bp : ℚ} :
    ∀ (l : List (ℚ × ℚ)) (acc : Option ℚ), (∀ p ∈ l, p.1 < bp) →
      walk_rate_map bp l acc = acc := by
  intro l
  induction l with
  | nil => intro acc _; rfl
  | cons hd rest ih =>
    intro acc h
    obtain ⟨mk, mv⟩ := hd
    rw [walk_rate_map, if_pos (h (mk, mv) (List.mem_cons_self _ _))]

theorem walk_min_ge {bp : ℚ} :
    ∀ (l : List (ℚ × ℚ)) (acc : Option ℚ),
      l.Pairwise (fun x y => y.1 < x.1) → (∃ q ∈ l, bp ≤ q.1) →
      ∃ q ∈ l, bp ≤ q.1 ∧ walk_rate_map bp l acc = some q.2 ∧
        ∀ r ∈ l, bp ≤ r.1 → q.1 ≤ r.1 := by
  intro l
  induction l with
  | nil =>
    rintro acc - ⟨q, hq, -⟩
    simp at hq
  | cons hd rest ih =>
    rintro acc hpw ⟨q0, hq0, hq0ge⟩
    obtain ⟨mk, mv⟩ := hd
    rcases List.pairwise_cons.mp hpw with ⟨hhd, hrest⟩
    by_cases hc : mk < bp
    · exfalso
      rcases List.mem_cons.mp hq0 with rfl | hq0'
      · exact absurd hq0ge (not_le.mpr hc)
      · exact absurd hq0ge (not_le.mpr (lt_trans (hhd q0 hq0') hc))
    · rw [walk_rate_map, if_neg hc]
      by_cases hrge : ∃ r ∈ rest, bp ≤ r.1
      · obtain ⟨q, hq, hqge, hqeq, hqmin⟩ := ih (some mv) hrest hrge
        refine ⟨q, List.mem_cons_of_mem _ hq, hqge, hqeq, ?_⟩
        intro r hr hrge'
        rcases List.mem_cons.mp hr with rfl | hr'
        · exact le_of_lt (hhd q hq)
        · exact hqmin r hr' hrge'
      · push_neg at hrge
        rw [walk_all_lt rest (some mv) hrge]
        refine ⟨(mk, mv), List.mem_cons_self _ _, not_lt.mp hc, rfl, ?_⟩
        intro r hr hrge'
        rcases List.mem_cons.mp hr with rfl | hr'
        · exact le_rfl
        · exact absurd hrge' (not_le.mpr (hrge r hr'))

theorem rate_map_markers_mem {ml : ℚ} :
    ∀ {l : List ℚ} {c : ℚ} {p : ℚ × ℚ}, p ∈ rate_map_markers ml c l →
      ∃ k : ℕ, k < l.length ∧ p.1 = c + k * ml := by
  intro l
  induction l with
  | nil =>
    intro c p hp
    simp [rate_map_markers] at hp
  | cons b rest ih =>
    intro c p hp
    rcases List.mem_cons.mp hp with rfl | hp'
    · exact ⟨0, by simp, by simp⟩
    · obtain ⟨k, hk, hkey⟩ := ih hp'
      refine ⟨k + 1, by simpa using Nat.succ_lt_succ hk, ?_⟩
      rw [hkey, qadd_eq]
      push_cast
      ring

theorem rate_map_markers_pairwise {ml : ℚ} (hml : 0 < ml) :
    ∀ (l : List ℚ) (c : ℚ),
      (rate_map_markers ml c l).Pairwise (fun x y => x.1 < y.1) := by
  intro l
  induction l with
  | nil =>
    intro c
    simp [rate_map_markers]
  | cons b rest ih =>
    intro c
    refine List.pairwise_cons.mpr ⟨?_, ih (qadd c ml)⟩
    intro q hq
    obtain ⟨k, -, hkey⟩ := rate_map_markers_mem hq
    rw [hkey, qadd_eq]
    have hk0 : (0 : ℚ) ≤ (k : ℚ) * ml := mul_nonneg (Nat.cast_nonneg k) (le_of_lt hml)
    linarith

theorem rate_map_list_pairwise (b0 blast : ℚ) (I : List ℚ) :
    (((RESERVOIR, b0) :: rate_map_markers
        (qdiv (qsub UPPER_RESERVOIR RESERVOIR) ((I.length + 1 : ℕ) : ℚ))
        (qadd RESERVOIR (qdiv (qsub UPPER_RESERVOIR RESERVOIR) ((I.length + 1 : ℕ) : ℚ))) I) ++
      [(UPPER_RESERVOIR, blast)]).Pairwise (fun x y => x.1 < y.1) := by
  have hmlq : qdiv (qsub UPPER_RESERVOIR RESERVOIR) ((I.length + 1 : ℕ) : ℚ) =
      (9 / 10 - 1 / 10) / ((I.length : ℚ) + 1) := by
    rw [qdiv_eq, qsub_eq, RESERVOIR_eq, UPPER_RESERVOIR_eq]
    push_cast
    ring_nf
  have hml : 0 < qdiv (qsub UPPER_RESERVOIR RESERVOIR) ((I.length + 1 : ℕ) : ℚ) := by
    rw [hmlq]
    positivity
  have hkey_bounds : ∀ p ∈ rate_map_markers
      (qdiv (qsub UPPER_RESERVOIR RESERVOIR) ((I.length + 1 : ℕ) : ℚ))
      (qadd RESERVOIR (qdiv (qsub UPPER_RESERVOIR RESERVOIR) ((I.length + 1 : ℕ) : ℚ))) I,
      RESERVOIR < p.1 ∧ p.1 < UPPER_RESERVOIR := by
    intro p hp
    obtain ⟨k, hk, hkey⟩ := rate_map_markers_mem hp
    rw [hkey, qadd_eq, hmlq, RESERVOIR_eq, UPPER_RESERVOIR_eq]
    have hden : (0 : ℚ) < (I.length : ℚ) + 1 := by positivity
    have hml' : (0 : ℚ) < (9 / 10 - 1 / 10) / ((I.length : ℚ) + 1) := by positivity
    have hk0 : (0 : ℚ) ≤ (k : ℚ) * ((9 / 10 - 1 / 10) / ((I.length : ℚ) + 1)) :=
      mul_nonneg (Nat.cast_nonneg k) (le_of_lt hml')
    constructor
    · linarith
    · have hkq : ((k : ℚ) + 1) < (I.length : ℚ) + 1 := by
        exact_mod_cast Nat.succ_lt_succ hk
      have h2 : ((k : ℚ) + 1) * ((9 / 10 - 1 / 10) / ((I.length : ℚ) + 1)) <
          ((I.length : ℚ) + 1) * ((9 / 10 - 1 / 10) / ((I.length : ℚ) + 1)) :=
        mul_lt_mul_of_pos_right hkq hml'
      have h3 : ((I.length : ℚ) + 1) * ((9 / 10 - 1 / 10) / ((I.length : ℚ) + 1)) =
          9 / 10 - 1 / 10 := by
        field_simp
        ring
      nlinarith
  refine List.pairwise_cons.mpr ⟨?_, ?_⟩
  · intro q hq
    rcases List.mem_append.mp hq with hq' | hq'
    · exact (hkey_bounds q hq').1
    · rw [List.mem_singleton.mp hq', RESERVOIR_eq, UPPER_RESERVOIR_eq]
      norm_num
  · refine List.pairwise_append.mpr
      ⟨rate_map_markers_pairwise hml _ _, List.pairwise_singleton _ _, ?_⟩
    intro a ha b hb
    rw [List.mem_singleton.mp hb]
    exact (hkey_bounds a ha).2

theorem get_rate_map_spec (bitrates : List ℚ) (hne : bitrates ≠ []) :
    ∃ m, get_rate_map bitrates = .ok m ∧
      m.Pairwise (fun x y => x.1 < y.1) ∧ ∃ b, (UPPER_RESERVOIR, b) ∈ m := by
  obtain ⟨b0, rest0, rfl⟩ := List.exists_cons_of_ne_nil hne
  obtain ⟨blast, hlast⟩ := Option.isSome_iff_exists.mp
    (List.getLast?_isSome.mpr (List.cons_ne_nil b0 rest0))
  refine ⟨((RESERVOIR, b0) :: rate_map_markers
      (qdiv (qsub UPPER_RESERVOIR RESERVOIR)
        ((((b0 :: rest0).drop 1).dropLast.length + 1 : ℕ) : ℚ))
      (qadd RESERVOIR (qdiv (qsub UPPER_RESERVOIR RESERVOIR)
        ((((b0 :: rest0).drop 1).dropLast.length + 1 : ℕ) : ℚ)))
      ((b0 :: rest0).drop 1).dropLast) ++ [(UPPER_RESERVOIR, blast)], ?_, ?_, blast, ?_⟩
  · simp only [get_rate_map, List.head?_cons, hlast]
  · exact rate_map_list_pairwise b0 blast ((b0 :: rest0).drop 1).dropLast
  · exact List.mem_append_right _ (List.mem_singleton_self _)

/-- C4 (amended).  In the buffer-based strategy, for every buffer
fraction strictly between the reservoir and the cushion, the bitrate
handed to the representation lookup is the one whose rate-map anchor is
the smallest anchor that is greater than or equal to the current
fraction (the walk stops at the first marker strictly below the
fraction, keeping the one just above), not the largest anchor ≤ the
fraction. -/
theorem buffer_step_smallest_anchor_ge
    (cfg : Config) (buffer_level : ℚ) (adaptation_set : AdaptationSet)
    (h0 : cfg.buffer_size ≠ 0) (hne : adaptation_set.representations ≠ [])
    (hlo : RESERVOIR < qdiv buffer_level cfg.buffer_size)
    (hhi : qdiv buffer_level cfg.buffer_size < UPPER_RESERVOIR) :
    ∃ m anchor value,
      get_rate_map (sortAsc (adaptation_set.representations.map
        (fun p => p.2.bandwidth))) = .ok m ∧
      (anchor, value) ∈ m ∧
      qdiv buffer_level cfg.buffer_size ≤ anchor ∧
      (∀ p ∈ m, qdiv buffer_level cfg.buffer_size ≤ p.1 → anchor ≤ p.1) ∧
      walk_rate_map (qdiv buffer_level cfg.buffer_size) m.reverse none = some value ∧
      choose_ideal_selection_buffer_based cfg buffer_level none adaptation_set =
        (.ok (find_representation_id adaptation_set.representations (some value)),
          some m) := by
  have hbne : sortAsc (adaptation_set.representations.map (fun p => p.2.bandwidth)) ≠ [] := by
    intro hcon
    have hperm := sortAsc_perm (adaptation_set.representations.map (fun p => p.2.bandwidth))
    rw [hcon] at hperm
    exact hne (List.map_eq_nil_iff.mp (List.Perm.nil_eq hperm).symm)
  obtain ⟨m, hgrm, hsorted, b9, hb9⟩ := get_rate_map_spec _ hbne
  have hrev : m.reverse.Pairwise (fun x y => y.1 < x.1) :=
    List.pairwise_reverse.mpr hsorted
  have hex : ∃ q ∈ m.reverse, qdiv buffer_level cfg.buffer_size ≤ q.1 := by
    refine ⟨(UPPER_RESERVOIR, b9), List.mem_reverse.mpr hb9, le_of_lt hhi⟩
  obtain ⟨q, hqmem, hqge, hqwalk, hqmin⟩ := walk_min_ge m.reverse none hrev hex
  have hc1 : ¬ (qdiv buffer_level cfg.buffer_size ≤ RESERVOIR) := not_le.mpr hlo
  have hc2 : ¬ (UPPER_RESERVOIR ≤ qdiv buffer_level cfg.buffer_size) := not_le.mpr hhi
  refine ⟨m, q.1, q.2, hgrm, List.mem_reverse.mp hqmem, hqge, ?_, hqwalk, ?_⟩
  · intro p hp hpge
    exact hqmin p (List.mem_reverse.mpr hp) hpge
  · simp only [choose_ideal_selection_buffer_based, hgrm, if_neg h0, hc1, hc2,
      if_false, ite_false, hqwalk]

/-- Witness for C4 (amended) at the three-step ladder with buffer
occupancy 18 s of 30 s (fraction 3/5): the smallest anchor ≥ 3/5 is
9/10, whose bitrate 300 (representation id 2) is selected. -/
theorem buffer_step_smallest_anchor_ge_witness :
    ∃ m anchor value,
      get_rate_map (sortAsc (threeStepSet.representations.map
        (fun p => p.2.bandwidth))) = .ok m ∧
      (anchor, value) ∈ m ∧
      qdiv 18 cfgBuffer.buffer_size ≤ anchor ∧
      (∀ p ∈ m, qdiv 18 cfgBuffer.buffer_size ≤ p.1 → anchor ≤ p.1) ∧
      walk_rate_map (qdiv 18 cfgBuffer.buffer_size) m.reverse none = some value ∧
      choose_ideal_selection_buffer_based cfgBuffer 18 none threeStepSet =
        (.ok (find_representation_id threeStepSet.representations (some value)),
          some m) :=
  buffer_step_smallest_anchor_ge cfgBuffer 18 threeStepSet
    (by decide) (by decide) (by decide) (by decide)

/-- Counterexample for C4 as stated: at buffer fraction 3/5 on the
three-step ladder the code selects bitrate 300 (the smallest anchor
9/10 that is ≥ 3/5, representation id 2), while the claimed "largest
anchor ≤ the fraction" reading yields anchor 1/2, bitrate 200,
representation id 1. -/
theorem buffer_step_not_largest_anchor_le_cex :
    (choose_ideal_selection_buffer_based cfgBuffer 18 none threeStepSet).1 =
      .ok (some 2) ∧
    get_rate_map (sortAsc (threeStepSet.representations.map (fun p => p.2.bandwidth))) =
      .ok [(mkRat 1 10, 100), (mkRat 1 2, 200), (mkRat 9 10, 300)] ∧
    spec_largest_anchor_le [(mkRat 1 10, 100), (mkRat 1 2, 200), (mkRat 9 10, 300)]
      (qdiv 18 cfgBuffer.buffer_size) = some 200 ∧
    find_representation_id threeStepSet.representations (some 200) = some 1 ∧
    ((some (2 : Int) : Option Int) ≠ some 1) := by
  refine ⟨by decide, by decide, by decide, by decide, by decide⟩

/-! ### The buffer-based extremes -/

theorem find_representation_id_spec (reps : List (Int × Representation)) (b : ℚ)
    (hex : ∃ p ∈ reps, p.2.bandwidth = b) :
    ∃ p ∈ reps, p.2.bandwidth = b ∧
      find_representation_id reps (some b) = some p.2.id := by
  induction reps using List.reverseRecOn with
  | nil =>
    obtain ⟨p, hp, -⟩ := hex
    simp at hp
  | append_singleton init x ih =>
    by_cases hx : x.2.bandwidth = b
    · refine ⟨x, List.mem_append_right _ (List.mem_singleton_self x), hx, ?_⟩
      rw [find_representation_id, List.foldl_append]
      simp only [List.foldl_cons, List.foldl_nil]
      rw [if_pos (by rw [hx])]
    · have hex' : ∃ p ∈ init, p.2.bandwidth = b := by
        obtain ⟨p, hp, hpb⟩ := hex
        rcases List.mem_append.mp hp with h1 | h1
        · exact ⟨p, h1, hpb⟩
        · rw [List.mem_singleton.mp h1] at hpb
          exact absurd hpb hx
      obtain ⟨p, hp, hpb, hfind⟩ := ih hex'
      refine ⟨p, List.mem_append_left _ hp, hpb, ?_⟩
      rw [find_representation_id, List.foldl_append]
      rw [find_representation_id] at hfind
      simp only [List.foldl_cons, List.foldl_nil]
      rw [if_neg (by simp only [Option.some.injEq]; exact fun hcon => hx hcon.symm)]
      exact hfind

/-- C6.  In the buffer-based strategy, for any rate-map cache state and
any track with at least two representations: when the buffer fraction
is at most the 10% reservoir a minimum-bitrate representation is
selected, and when it is at least the 90% cushion a maximum-bitrate
one; concretely, on the seven-step ladder with `max_buffer_duration`
30 s, occupancy 1.5 s yields id 0 (bitrate 391,570) and occupancy
28.5 s yields id 6 (bitrate 5,253,818). -/
theorem buffer_based_reservoir_cushion_extremes
    (cfg : Config) (buffer_level : ℚ) (rate_map : Option (List (ℚ × ℚ)))
    (adaptation_set : AdaptationSet)
    (h0 : cfg.buffer_size ≠ 0)
    (hlen : 2 ≤ adaptation_set.representations.length) :
    ((qdiv buffer_level cfg.buffer_size ≤ RESERVOIR →
      ∃ p ∈ adaptation_set.representations,
        (choose_ideal_selection_buffer_based cfg buffer_level rate_map adaptation_set).1 =
          .ok (some p.2.id) ∧
        ∀ q ∈ adaptation_set.representations, p.2.bandwidth ≤ q.2.bandwidth) ∧
     (UPPER_RESERVOIR ≤ qdiv buffer_level cfg.buffer_size →
      ∃ p ∈ adaptation_set.representations,
        (choose_ideal_selection_buffer_based cfg buffer_level rate_map adaptation_set).1 =
          .ok (some p.2.id) ∧
        ∀ q ∈ adaptation_set.representations, q.2.bandwidth ≤ p.2.bandwidth)) ∧
    (choose_ideal_selection_buffer_based cfgBuffer (mkRat 3 2) none ladderSet).1 =
      .ok (some 0) ∧
    dictGet ladderReps 0 = some ⟨0, 391570⟩ ∧
    (choose_ideal_selection_buffer_based cfgBuffer (mkRat 57 2) none ladderSet).1 =
      .ok (some 6) ∧
    dictGet ladderReps 6 = some ⟨6, 5253818⟩ := by
  have hne : adaptation_set.representations ≠ [] := by
    intro hcon
    rw [hcon] at hlen
    simp at hlen
  have hbne : sortAsc (adaptation_set.representations.map (fun p => p.2.bandwidth)) ≠ [] := by
    intro hcon
    have hperm := sortAsc_perm (adaptation_set.representations.map (fun p => p.2.bandwidth))
    rw [hcon] at hperm
    exact hne (List.map_eq_nil_iff.mp (List.Perm.nil_eq hperm).symm)
  have hperm := sortAsc_perm (adaptation_set.representations.map (fun p => p.2.bandwidth))
  have hsorted := sortAsc_pairwise (adaptation_set.representations.map (fun p => p.2.bandwidth))
  have hbuild : ∃ m, (match rate_map with
      | some m => Except.ok m
      | none => get_rate_map (sortAsc (adaptation_set.representations.map
          (fun p => p.2.bandwidth)))) = (Except.ok m : Except PyExn (List (ℚ × ℚ))) := by
    cases rate_map with
    | some m0 => exact ⟨m0, rfl⟩
    | none =>
      obtain ⟨m, hm, -, -⟩ := get_rate_map_spec _ hbne
      exact ⟨m, hm⟩
  obtain ⟨m, hm⟩ := hbuild
  refine ⟨⟨?_, ?_⟩, by decide, by decide, by decide, by decide⟩
  · intro hle
    obtain ⟨b, hhead⟩ := Option.isSome_iff_exists.mp
      (List.head?_isSome.mpr hbne)
    obtain ⟨hbmem, hbmin⟩ := head_asc_min hsorted hhead
    obtain ⟨p0, hp0, hp0b⟩ := List.mem_map.mp (hperm.mem_iff.mp hbmem)
    obtain ⟨p, hp, hpb, hfind⟩ := find_representation_id_spec
      adaptation_set.representations b ⟨p0, hp0, hp0b⟩
    refine ⟨p, hp, ?_, ?_⟩
    · simp only [choose_ideal_selection_buffer_based, if_neg h0, hm, if_pos hle, hhead,
        hfind]
    · intro q hq
      rw [hpb]
      exact hbmin q.2.bandwidth (hperm.mem_iff.mpr
        (List.mem_map_of_mem (fun p => p.2.bandwidth) hq))
  · intro hge
    have hnotle : ¬ (qdiv buffer_level cfg.buffer_size ≤ RESERVOIR) := by
      intro hcon
      have : UPPER_RESERVOIR ≤ RESERVOIR := le_trans hge hcon
      rw [RESERVOIR_eq, UPPER_RESERVOIR_eq] at this
      norm_num at this
    obtain ⟨b, hlast⟩ := Option.isSome_iff_exists.mp (List.getLast?_isSome.mpr hbne)
    obtain ⟨hbmem, hbmax⟩ := getLast_asc_max hsorted hlast
    obtain ⟨p0, hp0, hp0b⟩ := List.mem_map.mp (hperm.mem_iff.mp hbmem)
    obtain ⟨p, hp, hpb, hfind⟩ := find_representation_id_spec
      adaptation_set.representations b ⟨p0, hp0, hp0b⟩
    refine ⟨p, hp, ?_, ?_⟩
    · simp only [choose_ideal_selection_buffer_based, if_neg h0, hm, if_neg hnotle,
        if_pos hge, hlast, hfind]
    · intro q hq
      rw [hpb]
      exact hbmax q.2.bandwidth (hperm.mem_iff.mpr
        (List.mem_map_of_mem (fun p => p.2.bandwidth) hq))

/-- Witness for C6 at the spec's scenario: occupancy 1.5 s of 30 s on
the seven-step ladder selects the minimum-bitrate representation. -/
theorem buffer_based_reservoir_cushion_extremes_witness :
    (qdiv (mkRat 3 2) cfgBuffer.buffer_size ≤ RESERVOIR) ∧
    (∃ p ∈ ladderSet.representations,
      (choose_ideal_selection_buffer_based cfgBuffer (mkRat 3 2) none ladderSet).1 =
        .ok (some p.2.id) ∧
      ∀ q ∈ ladderSet.representations, p.2.bandwidth ≤ q.2.bandwidth) := by
  refine ⟨by decide, ?_⟩
  exact ((buffer_based_reservoir_cushion_extremes cfgBuffer (mkRat 3 2) none ladderSet
    (by decide) (by decide)).1).1 (by decide)

/-! ### Idempotence of the stateless strategies -/

theorem choose_buffer_some_eq (cfg : Config) (lvl : ℚ) (m : List (ℚ × ℚ))
    (aset : AdaptationSet) (h0 : ¬ cfg.buffer_size = 0) :
    choose_ideal_selection_buffer_based cfg lvl (some m) aset =
      (match (if qdiv lvl cfg.buffer_size ≤ RESERVOIR then
               match (sortAsc (aset.representations.map (fun p => p.2.bandwidth))).head? with
               | some b => Except.ok (some b)
               | none => Except.error PyExn.indexError
             else if UPPER_RESERVOIR ≤ qdiv lvl cfg.buffer_size then
               match (sortAsc (aset.representations.map (fun p => p.2.bandwidth))).getLast? with
               | some b => Except.ok (some b)
               | none => Except.error PyExn.indexError
             else Except.ok (walk_rate_map (qdiv lvl cfg.buffer_size) m.reverse none)) with
       | .error e => (.error e, some m)
       | .ok nb => (.ok (find_representation_id aset.representations nb), some m)) := by
  simp only [choose_ideal_selection_buffer_based, if_neg h0]

theorem choose_buffer_snd_some (cfg : Config) (lvl : ℚ) (m : List (ℚ × ℚ))
    (aset : AdaptationSet) :
    (choose_ideal_selection_buffer_based cfg lvl (some m) aset).2 = some m := by
  by_cases h0 : cfg.buffer_size = 0
  · simp only [choose_ideal_selection_buffer_based, if_pos h0]
  · rw [choose_buffer_some_eq cfg lvl m aset h0]
    split <;> rfl

theorem choose_buffer_idem (cfg : Config) (lvl : ℚ) (rm : Option (List (ℚ × ℚ)))
    (aset : AdaptationSet) {out : Except PyExn (Option Int)} {rm' : Option (List (ℚ × ℚ))}
    (h : choose_ideal_selection_buffer_based cfg lvl rm aset = (out, rm')) :
    choose_ideal_selection_buffer_based cfg lvl rm' aset = (out, rm') := by
  cases rm with
  | some m =>
    have h2 : rm' = some m := by
      have hsnd := congrArg Prod.snd h
      rw [choose_buffer_snd_some] at hsnd
      exact hsnd.symm
    subst h2
    exact h
  | none =>
    by_cases h0 : cfg.buffer_size = 0
    · have hnone : choose_ideal_selection_buffer_based cfg lvl none aset =
          (.error .zeroDivisionError, none) := by
        simp only [choose_ideal_selection_buffer_based, if_pos h0]
      rw [hnone, Prod.mk.injEq] at h
      obtain ⟨h1, h2⟩ := h
      subst h1
      subst h2
      exact hnone
    · cases hgm : get_rate_map (sortAsc (aset.representations.map
          (fun p => p.2.bandwidth))) with
      | error e =>
        have hnone : choose_ideal_selection_buffer_based cfg lvl none aset =
            (.error e, none) := by
          simp only [choose_ideal_selection_buffer_based, if_neg h0, hgm]
        rw [hnone, Prod.mk.injEq] at h
        obtain ⟨h1, h2⟩ := h
        subst h1
        subst h2
        exact hnone
      | ok m =>
        have hbody : choose_ideal_selection_buffer_based cfg lvl none aset =
            choose_ideal_selection_buffer_based cfg lvl (some m) aset := by
          rw [choose_buffer_some_eq cfg lvl m aset h0]
          simp only [choose_ideal_selection_buffer_based, if_neg h0, hgm]
        rw [hbody] at h
        have h2 : rm' = some m := by
          have hsnd := congrArg Prod.snd h
          rw [choose_buffer_snd_some] at hsnd
          exact hsnd.symm
        subst h2
        exact h

theorem choose_buffer_ok_snd (cfg : Config) (lvl : ℚ) (rm : Option (List (ℚ × ℚ)))
    (aset : AdaptationSet) {v : Option Int} {rm' : Option (List (ℚ × ℚ))}
    (h : choose_ideal_selection_buffer_based cfg lvl rm aset = (.ok v, rm')) :
    ∃ m, rm' = some m := by
  cases rm with
  | some m =>
    refine ⟨m, ?_⟩
    have hsnd := congrArg Prod.snd h
    rw [choose_buffer_snd_some] at hsnd
    exact hsnd.symm
  | none =>
    by_cases h0 : cfg.buffer_size = 0
    · have hnone : choose_ideal_selection_buffer_based cfg lvl none aset =
          (.error .zeroDivisionError, none) := by
        simp only [choose_ideal_selection_buffer_based, if_pos h0]
      rw [hnone] at h
      simp at h
    · cases hgm : get_rate_map (sortAsc (aset.representations.map
          (fun p => p.2.bandwidth))) with
      | error e =>
        have hnone : choose_ideal_selection_buffer_based cfg lvl none aset =
            (.error e, none) := by
          simp only [choose_ideal_selection_buffer_based, if_neg h0, hgm]
        rw [hnone] at h
        simp at h
      | ok m =>
        refine ⟨m, ?_⟩
        have hbody : choose_ideal_selection_buffer_based cfg lvl none aset =
            choose_ideal_selection_buffer_based cfg lvl (some m) aset := by
          rw [choose_buffer_some_eq cfg lvl m aset h0]
          simp only [choose_ideal_selection_buffer_based, if_neg h0, hgm]
        rw [hbody] at h
        have hsnd := congrArg Prod.snd h
        rw [choose_buffer_snd_some] at hsnd
        exact hsnd.symm

theorem buffer_go_state_some (cfg : Config) (lvl : ℚ) :
    ∀ (l : List (Int × AdaptationSet)) (m : List (ℚ × ℚ)),
      (buffer_based_go cfg lvl l (some m)).2 = some m := by
  intro l
  induction l with
  | nil => intro m; rfl
  | cons p rest ih =>
    intro m
    obtain ⟨k, aset⟩ := p
    simp only [buffer_based_go]
    cases hc : choose_ideal_selection_buffer_based cfg lvl (some m) aset with
    | mk cout crm =>
      have hcrm : crm = some m := by
        have hsnd := congrArg Prod.snd hc
        rw [choose_buffer_snd_some] at hsnd
        exact hsnd.symm
      subst hcrm
      cases cout with
      | error e => simp [hc]
      | ok v =>
        simp only [hc]
        cases hg : buffer_based_go cfg lvl rest (some m) with
        | mk tout trm =>
          have htrm : trm = some m := by
            have hsnd := congrArg Prod.snd hg
            rw [ih m] at hsnd
            exact hsnd.symm
          subst htrm
          cases tout <;> simp [hg]

theorem buffer_go_idem (cfg : Config) (lvl : ℚ) :
    ∀ (l : List (Int × AdaptationSet)) (rm : Option (List (ℚ × ℚ)))
      (out : Except PyExn Selection) (rm2 : Option (List (ℚ × ℚ))),
      buffer_based_go cfg lvl l rm = (out, rm2) →
      buffer_based_go cfg lvl l rm2 = (out, rm2) := by
  intro l
  induction l with
  | nil =>
    intro rm out rm2 h
    simp only [buffer_based_go] at h ⊢
    rw [Prod.mk.injEq] at h
    obtain ⟨h1, h2⟩ := h
    subst h1
    subst h2
    rfl
  | cons p rest ih =>
    intro rm out rm2 h
    obtain ⟨k, aset⟩ := p
    simp only [buffer_based_go] at h ⊢
    cases hc : choose_ideal_selection_buffer_based cfg lvl rm aset with
    | mk cout crm =>
      cases cout with
      | error e =>
        simp only [hc] at h
        rw [Prod.mk.injEq] at h
        obtain ⟨h1, h2⟩ := h
        subst h1
        subst h2
        have hc2 := choose_buffer_idem cfg lvl rm aset hc
        simp only [hc2]
      | ok v =>
        simp only [hc] at h
        obtain ⟨m, hm⟩ := choose_buffer_ok_snd cfg lvl rm aset hc
        subst hm
        cases hg : buffer_based_go cfg lvl rest (some m) with
        | mk tout trm =>
          have htrm : trm = some m := by
            have hsnd := congrArg Prod.snd hg
            rw [buffer_go_state_some] at hsnd
            exact hsnd.symm
          subst htrm
          have hc2 := choose_buffer_idem cfg lvl rm aset hc
          cases tout with
          | error e2 =>
            simp only [hg] at h
            rw [Prod.mk.injEq] at h
            obtain ⟨h1, h2⟩ := h
            subst h1
            subst h2
            simp only [hc2, hg]
          | ok tl =>
            simp only [hg] at h
            rw [Prod.mk.injEq] at h
            obtain ⟨h1, h2⟩ := h
            subst h1
            subst h2
            simp only [hc2, hg]

theorem buffer_based_idem (cfg : Config) (lvl : ℚ) (st : CtrlState)
    (adaptation_sets : List (Int × AdaptationSet)) {out : Except PyExn Selection}
    {st1 : CtrlState}
    (h : buffer_based cfg lvl st adaptation_sets = (out, st1)) :
    buffer_based cfg lvl st1 adaptation_sets = (out, st1) := by
  simp only [buffer_based] at h ⊢
  cases hg : buffer_based_go cfg lvl adaptation_sets st.rate_map with
  | mk gout grm =>
    simp only [hg] at h
    rw [Prod.mk.injEq] at h
    obtain ⟨h1, h2⟩ := h
    subst h1
    subst h2
    have hg2 := buffer_go_idem cfg lvl adaptation_sets st.rate_map gout grm hg
    simp only [hg2]

/-- C9.  Idempotence of the stateless strategies: with the
bandwidth-based or the buffer-based strategy configured, invoking
`update_selection` a second time with the same bandwidth, buffer level
and catalog — starting from the state the first call produced — yields
exactly the same result (same selection, same state). -/
theorem stateless_strategies_idempotent
    (cfg : Config) (bandwidth buffer_level : ℚ) (st : CtrlState)
    (adaptation_sets : List (Int × AdaptationSet))
    (r : Except PyExn (Option Selection)) (st1 : CtrlState)
    (halg : cfg.abr_algorithm = "bandwidth-based" ∨ cfg.abr_algorithm = "buffer-based")
    (h : update_selection cfg bandwidth buffer_level st adaptation_sets = (r, st1)) :
    update_selection cfg bandwidth buffer_level st1 adaptation_sets = (r, st1) := by
  rcases halg with halg | halg
  · have hb1 : ¬ ((cfg.abr_algorithm == "buffer-based") = true) := by
      rw [halg]
      decide
    have hb2 : ((cfg.abr_algorithm == "bandwidth-based") = true) := by
      rw [halg]
      decide
    rw [update_selection, if_neg hb1, if_pos hb2] at h
    rw [update_selection, if_neg hb1, if_pos hb2]
    cases hbb : bandwidth_based bandwidth adaptation_sets with
    | error e =>
      simp only [hbb] at h ⊢
      rw [Prod.mk.injEq] at h
      obtain ⟨h1, h2⟩ := h
      subst h1
      subst h2
      rfl
    | ok s =>
      simp only [hbb] at h ⊢
      rw [Prod.mk.injEq] at h
      obtain ⟨h1, h2⟩ := h
      subst h1
      subst h2
      rfl
  · have hb1 : ((cfg.abr_algorithm == "buffer-based") = true) := by
      rw [halg]
      decide
    rw [update_selection, if_pos hb1] at h
    rw [update_selection, if_pos hb1]
    cases hb : buffer_based cfg buffer_level st adaptation_sets with
    | mk bout bst =>
      have hidem := buffer_based_idem cfg buffer_level st adaptation_sets hb
      cases bout with
      | error e =>
        simp only [hb] at h
        rw [Prod.mk.injEq] at h
        obtain ⟨h1, h2⟩ := h
        subst h1
        subst h2
        simp only [hidem]
      | ok s =>
        simp only [hb] at h
        rw [Prod.mk.injEq] at h
        obtain ⟨h1, h2⟩ := h
        subst h1
        subst h2
        simp only [hidem]

/-- Witness for C9: a second buffer-based call from the state produced
by the first (rate map now cached) returns the same selection
`{0: 0}` and leaves the state unchanged. -/
theorem stateless_strategies_idempotent_witness :
    update_selection cfgBuffer 1000 (mkRat 3 2) ⟨some exRateMap, none⟩
      [((0 : Int), ladderSet)] =
      (.ok (some [(0, some 0)]), ⟨some exRateMap, none⟩) :=
  stateless_strategies_idempotent cfgBuffer 1000 (mkRat 3 2) ⟨none, none⟩
    [((0 : Int), ladderSet)] (.ok (some [(0, some 0)])) ⟨some exRateMap, none⟩
    (Or.inr rfl) (by decide)

/-! ### The debug override and the error behaviour -/

/-- C2 (code bug).  With the bandwidth-based strategy the decision is
unconditionally overridden with the placeholder `{0: 3}` (line 198 of
`abr.py`): on a catalog whose only adaptation-set id is 5 the returned
mapping's key set is `{0}`, not `{5}` — contradicting the contract in
`update_selection`'s own docstring. -/
theorem bandwidth_override_breaks_update_selection_contract :
    (update_selection cfgBandwidth 2000000 5 ⟨none, none⟩
      [((5 : Int), ⟨5, "video", ladderReps⟩)]).1 = .ok (some [(0, some 3)]) ∧
    dictGet ([((0 : Int), some 3)] : Selection) 5 = none ∧
    (([((0 : Int), some 3)] : Selection).map Prod.fst = [0]) ∧ ((0 : Int) ≠ 5) := by
  refine ⟨by decide, by decide, by decide, by decide⟩

/-- C3 (code bug).  `bandwidth_based` computes the ideal selection and
then discards it: on the spec's scenario (one video track, ladder ids
1..7, bandwidth 2,000,000) the computed ideal is `{0: 4}` — id 4 being
the representation with bitrate 1,489,543 — but the function returns
the fixed placeholder `{0: 3}`. -/
theorem bandwidth_based_returns_placeholder_not_ideal :
    bandwidth_based 2000000 [((0 : Int), ladderSet17)] = .ok [(0, some 3)] ∧
    compute_ideal [((0 : Int), ladderSet17)] ((pyInt 2000000 : ℤ) : ℚ) =
      .ok [(0, some 4)] ∧
    dictGet ladderReps17 4 = some ⟨4, 1489543⟩ ∧ ((4 : Int) ≠ 3) := by
  refine ⟨by decide, by decide, by decide, by decide⟩

/-- Counterexample for C8 as stated: an unknown strategy name makes
`update_selection` fall off the `if/elif` chain and silently return
Python `None` (no error at all), and an empty representation mapping
under the bandwidth-based strategy raises `AttributeError` — in neither
case is a `ConfigurationError` produced. -/
theorem no_configuration_error_cex :
    (update_selection ⟨5, 20, 30, "foo"⟩ 1000 5 ⟨none, none⟩
      [((0 : Int), ladderSet)]).1 = .ok none ∧
    (update_selection cfgBandwidth 1000 5 ⟨none, none⟩
      [((0 : Int), emptySet)]).1 = .error .attributeError ∧
    ((Except.ok (none : Option Selection) : Except PyExn (Option Selection)) ≠
      .error .configurationError) ∧
    ((Except.error PyExn.attributeError : Except PyExn (Option Selection)) ≠
      .error .configurationError) := by
  refine ⟨by decide, by decide, by decide, by decide⟩

/-- C8 (amended).  A strategy name that is none of the three known ones
makes `update_selection` silently return no selection (Python `None`)
with the state untouched, and an empty representation mapping under the
bandwidth-based strategy crashes with `AttributeError`; no
`ConfigurationError` exists anywhere in the code. -/
theorem unknown_strategy_and_empty_set_behavior
    (cfg : Config) (bandwidth buffer_level : ℚ) (st : CtrlState)
    (adaptation_sets : List (Int × AdaptationSet)) :
    (cfg.abr_algorithm ≠ "buffer-based" → cfg.abr_algorithm ≠ "bandwidth-based" →
      cfg.abr_algorithm ≠ "hybrid" →
      update_selection cfg bandwidth buffer_level st adaptation_sets = (.ok none, st)) ∧
    (∀ k a, cfg.abr_algorithm = "bandwidth-based" → a.representations = [] →
      adaptation_sets = [(k, a)] →
      (update_selection cfg bandwidth buffer_level st adaptation_sets).1 =
        .error .attributeError) := by
  constructor
  · intro h1 h2 h3
    have hb1 : ¬ ((cfg.abr_algorithm == "buffer-based") = true) :=
      fun hcon => h1 (beq_iff_eq.mp hcon)
    have hb2 : ¬ ((cfg.abr_algorithm == "bandwidth-based") = true) :=
      fun hcon => h2 (beq_iff_eq.mp hcon)
    have hb3 : ¬ ((cfg.abr_algorithm == "hybrid") = true) :=
      fun hcon => h3 (beq_iff_eq.mp hcon)
    rw [update_selection, if_neg hb1, if_neg hb2, if_neg hb3]
  · intro k a halg hrep hcat
    subst hcat
    have hchoose : ∀ bw : ℚ, choose_ideal_selection_bandwidth_based a bw =
        .error .attributeError := by
      intro bw
      simp [choose_ideal_selection_bandwidth_based, hrep, sortDesc]
    have hcnt : ¬ (num_videos [(k, a)] + num_audios [(k, a)] = 0) := by
      rw [num_videos_add_num_audios]
      simp
    have hci : compute_ideal [(k, a)] ((pyInt bandwidth : ℤ) : ℚ) =
        .error .attributeError := by
      rw [compute_ideal, if_neg hcnt]
      simp only [compute_ideal_go, hchoose]
    have hb1 : ¬ ((cfg.abr_algorithm == "buffer-based") = true) := by
      rw [halg]
      decide
    have hb2 : (cfg.abr_algorithm == "bandwidth-based") = true := by
      rw [halg]
      decide
    rw [update_selection, if_neg hb1, if_pos hb2]
    simp only [bandwidth_based, hci]

/-- Witness for C8 (amended): the strategy name "foo" silently yields
no selection, and the empty-representation catalog crashes with
`AttributeError` under the bandwidth-based strategy. -/
theorem unknown_strategy_and_empty_set_behavior_witness :
    (update_selection ⟨5, 20, 30, "foo"⟩ 1000 5 ⟨none, none⟩
      [((0 : Int), ladderSet)] = (.ok none, ⟨none, none⟩)) ∧
    ((update_selection cfgBandwidth 1000 5 ⟨none, none⟩
      [((0 : Int), emptySet)]).1 = .error .attributeError) :=
  ⟨(unknown_strategy_and_empty_set_behavior ⟨5, 20, 30, "foo"⟩ 1000 5 ⟨none, none⟩
      [((0 : Int), ladderSet)]).1 (by decide) (by decide) (by decide),
   (unknown_strategy_and_empty_set_behavior cfgBandwidth 1000 5 ⟨none, none⟩
      [((0 : Int), emptySet)]).2 0 emptySet rfl rfl rfl⟩

end DashAbr
